import Mathlib

set_option linter.unusedSectionVars false

/-!
# BVH construction and flattening of vkraytrace (`include/bvh.hpp`, `src/bvh.cpp`)

A shallow embedding of the triangle-record builder (`buildTriangleRefList`), the
recursive median-split builder (`buildBVHNode`) and the flattener (`buildBVH`),
followed by the properties established about them.

Modelling conventions.

* `std::vector<T>` is `List T`; `size()` is `List.length`.
* `float` is a type `F` carrying a total order and *uninterpreted* arithmetic
  (`FloatOps`): comparisons, `glm::max` and `glm::min` are exact on floats, whereas
  `+`, `-` and `/ 2.0f` round, so nothing is assumed about them.  NaN is outside the model.
  Two carriers serve for concrete evaluation: `Binary32`, whose operations round to
  binary32, and `ℚ` with the binary32 constants and exact operations.
* `uint32_t`, `unsigned` and `int32_t` conversions are explicit (`toUInt32`, `toInt32`).
* A local that C++ leaves uninitialised (`BVHNode node;`) starts from an arbitrary value
  supplied by the parameter `uninit`.
* `std::sort` is a parameter constrained by its contract (`StdSort`).
-/

/-! ## Scalars and vectors -/

/-- Carrier of C++ `float` values: a total order, with the arithmetic used by the program
left uninterpreted. `EPSILON` is the constant of `bvh.hpp`, `big` the value of the literal
`100000000000000` once converted to `float`, and `negBig` that of `-100000000000000`. -/
class FloatOps (F : Type) extends LinearOrder F where
  add : F → F → F
  sub : F → F → F
  half : F → F
  EPSILON : F
  big : F
  negBig : F

/-- The type `glm::vec3`. -/
structure vec3 (F : Type) where
  x : F
  y : F
  z : F
deriving DecidableEq

/-- The type `glm::vec2`. -/
structure vec2 (F : Type) where
  x : F
  y : F
deriving DecidableEq

/-- The enumeration `BVHAxis`. -/
inductive BVHAxis where
  | X_AXIS
  | Y_AXIS
  | Z_AXIS
deriving DecidableEq

section Defs

variable {F : Type} [FloatOps F]

/-- Component access `v[axis]`. -/
def vec3.get (v : vec3 F) : BVHAxis → F
  | .X_AXIS => v.x
  | .Y_AXIS => v.y
  | .Z_AXIS => v.z

/-- The constructor `glm::vec3(s)`: every component is `s`. -/
def vec3.splat (s : F) : vec3 F := ⟨s, s, s⟩

/-- Component-wise `glm::max`. -/
def glmMax (a b : vec3 F) : vec3 F := ⟨max a.x b.x, max a.y b.y, max a.z b.z⟩

/-- Component-wise `glm::min`. -/
def glmMin (a b : vec3 F) : vec3 F := ⟨min a.x b.x, min a.y b.y, min a.z b.z⟩

/-- Component-wise `a + b`. -/
def vec3.add (a b : vec3 F) : vec3 F :=
  ⟨FloatOps.add a.x b.x, FloatOps.add a.y b.y, FloatOps.add a.z b.z⟩

/-- Component-wise `a - b`. -/
def vec3.sub (a b : vec3 F) : vec3 F :=
  ⟨FloatOps.sub a.x b.x, FloatOps.sub a.y b.y, FloatOps.sub a.z b.z⟩

/-- Component-wise `a / 2.0f`. -/
def vec3.half (a : vec3 F) : vec3 F := ⟨FloatOps.half a.x, FloatOps.half a.y, FloatOps.half a.z⟩

end Defs

/-! ## Data model (`bvh.hpp`) -/

/-- The struct `Vertex`. -/
structure Vertex (F : Type) where
  pos : vec3 F
  normal : vec3 F
  texcoord : vec2 F
deriving DecidableEq

/-- The struct `AABB`. -/
structure AABB (F : Type) where
  min : vec3 F
  max : vec3 F
deriving DecidableEq

/-- The struct `TriangleRef`: three `unsigned` vertex indices. -/
structure TriangleRef where
  v0 : Nat
  v1 : Nat
  v2 : Nat
deriving DecidableEq

/-- The struct `BVHTriangleRef`. -/
structure BVHTriangleRef (F : Type) where
  v0 : vec3 F
  e1 : vec3 F
  e2 : vec3 F
  bounds : AABB F
  index : Nat
deriving DecidableEq

/-- The struct `BVHBuildNode`. The flag `isLeaf` is the constructor. A leaf keeps
`leftBounds` and `refList`; its `rightBounds` and child pointers are never assigned by
`buildBVHNode` and never read by `buildBVH`, so they are not represented. An internal node
keeps both boxes, both children and its own (normally empty) `refList`. -/
inductive BVHBuildNode (F : Type) where
  | leaf (leftBounds : AABB F) (refList : List (BVHTriangleRef F))
  | node (leftBounds rightBounds : AABB F) (left right : BVHBuildNode F)
      (refList : List (BVHTriangleRef F))
deriving DecidableEq

/-- The struct `BVHNode` (without its padding bytes). -/
structure BVHNode (F : Type) where
  leftBounds : AABB F
  rightBounds : AABB F
  isLeafBegin : Int
  rightOffsetEnd : Int
deriving DecidableEq

/-- The struct `BVH`. -/
structure BVH (F : Type) where
  nodeList : List (BVHNode F)
  refList : List (BVHTriangleRef F)
deriving DecidableEq

/-! ## Machine integers -/

/-- Conversion of a size to `uint32_t` / `unsigned`. -/
def toUInt32 (n : Nat) : Nat := n % 2 ^ 32

/-- Conversion of a size or of a `uint32_t` to `int32_t` (two's complement). -/
def toInt32 (n : Nat) : Int :=
  if n % 2 ^ 32 < 2 ^ 31 then ((n % 2 ^ 32 : Nat) : Int) else ((n % 2 ^ 32 : Nat) : Int) - 2 ^ 32

/-! ## Outcomes of a loop that may not exit -/

/-- Outcome of running a loop for a bounded number of tests: it returned a value, it made an
access outside a vector (undefined behaviour), or it was still running when the fuel ran
out. -/
inductive LoopResult (α : Type) where
  | returned (value : α)
  | outOfRange
  | outOfFuel
deriving DecidableEq

/-! ## `std::sort` -/

/-- The requirement `std::sort` puts on its comparator: a strict weak ordering. -/
structure StrictWeakOrdering {α : Type} (comp : α → α → Bool) : Prop where
  irrefl : ∀ a, comp a a = false
  trans : ∀ a b c, comp a b = true → comp b c = true → comp a c = true
  incomp_trans : ∀ a b c, comp a b = false → comp b a = false → comp b c = false →
    comp c b = false → comp a c = false ∧ comp c a = false

/-- The library routine `std::sort`, taken as a parameter together with its contract:
for a strict weak ordering `comp` the result is a rearrangement of the input in which no
element is `comp`-smaller than an earlier one. The order among equivalent elements is not
specified, as for the unstable library sort. -/
structure StdSort (α : Type) where
  sort : (α → α → Bool) → List α → List α
  perm : ∀ comp l, StrictWeakOrdering comp → (sort comp l).Perm l
  sorted : ∀ comp l, StrictWeakOrdering comp →
    (sort comp l).Pairwise (fun a b => comp b a = false)

/-- Insertion of `a` before the first element it is `comp`-smaller than. -/
def orderedInsert {α : Type} (comp : α → α → Bool) (a : α) : List α → List α
  | [] => [a]
  | b :: l => if comp a b then a :: b :: l else b :: orderedInsert comp a l

/-- Insertion sort, one implementation of the `std::sort` contract. -/
def insertionSort {α : Type} (comp : α → α → Bool) : List α → List α
  | [] => []
  | a :: l => orderedInsert comp a (insertionSort comp l)

/-! Insertion sort meets the contract. -/

section SortFacts

variable {α : Type}

theorem orderedInsert_perm (comp : α → α → Bool) (a : α) :
    ∀ l : List α, (orderedInsert comp a l).Perm (a :: l) := by
  intro l
  induction l with
  | nil => simp [orderedInsert]
  | cons b l ih =>
    simp only [orderedInsert]
    split
    · exact List.Perm.refl _
    · exact (List.Perm.cons b ih).trans (List.Perm.swap a b l)

theorem insertionSort_perm (comp : α → α → Bool) :
    ∀ l : List α, (insertionSort comp l).Perm l := by
  intro l
  induction l with
  | nil => simp [insertionSort]
  | cons a l ih =>
    simp only [insertionSort]
    exact (orderedInsert_perm comp a _).trans (List.Perm.cons a ih)

/-- In a strict weak ordering "not smaller than" is transitive. -/
theorem StrictWeakOrdering.not_lt_trans {comp : α → α → Bool} (h : StrictWeakOrdering comp)
    {a b c : α} (hba : comp b a = false) (hcb : comp c b = false) : comp c a = false := by
  by_contra hca
  have hca : comp c a = true := by simpa using hca
  have hbc : comp b c = false := by
    by_contra hbc
    have hbc : comp b c = true := by simpa using hbc
    have := h.trans b c a hbc hca
    simp [hba] at this
  have hab : comp a b = false := by
    by_contra hab
    have hab : comp a b = true := by simpa using hab
    have := h.trans c a b hca hab
    simp [hcb] at this
  have := (h.incomp_trans c b a hcb hbc hba hab).1
  simp [hca] at this

/-- In a strict weak ordering two elements are never smaller than each other. -/
theorem StrictWeakOrdering.asymm {comp : α → α → Bool} (h : StrictWeakOrdering comp)
    {a b : α} (hab : comp a b = true) : comp b a = false := by
  by_contra hba
  have hba : comp b a = true := by simpa using hba
  have := h.trans a b a hab hba
  simp [h.irrefl a] at this

theorem orderedInsert_sorted {comp : α → α → Bool} (h : StrictWeakOrdering comp) (a : α) :
    ∀ l : List α, l.Pairwise (fun x y => comp y x = false) →
      (orderedInsert comp a l).Pairwise (fun x y => comp y x = false) := by
  intro l
  induction l with
  | nil => intro _; simp [orderedInsert]
  | cons b l ih =>
    intro hl
    rw [List.pairwise_cons] at hl
    simp only [orderedInsert]
    split
    · rename_i hab
      rw [List.pairwise_cons]
      refine ⟨?_, List.pairwise_cons.mpr hl⟩
      intro y hy
      rcases List.mem_cons.mp hy with rfl | hy
      · exact h.asymm hab
      · exact h.not_lt_trans (h.asymm hab) (hl.1 y hy)
    · rename_i hab
      have hab : comp a b = false := by simpa using hab
      rw [List.pairwise_cons]
      refine ⟨?_, ih hl.2⟩
      intro y hy
      have hy' := (orderedInsert_perm comp a l).subset hy
      rcases List.mem_cons.mp hy' with rfl | hy'
      · exact hab
      · exact hl.1 y hy'

theorem insertionSort_sorted {comp : α → α → Bool} (h : StrictWeakOrdering comp) :
    ∀ l : List α, (insertionSort comp l).Pairwise (fun x y => comp y x = false) := by
  intro l
  induction l with
  | nil => simp [insertionSort]
  | cons a l ih =>
    simp only [insertionSort]
    exact orderedInsert_sorted h a _ ih

end SortFacts

/-- Insertion sort meets the contract of `std::sort`. -/
def insertionStdSort (α : Type) : StdSort α where
  sort := insertionSort
  perm := fun comp l _ => insertionSort_perm comp l
  sorted := fun _ l h => insertionSort_sorted h l

section Program

variable {F : Type} [FloatOps F]

/-! ## `bvh.hpp`: the constructor of `BVHTriangleRef` -/

/-- The constructor `BVHTriangleRef(tri, vertex_data, index)`. The unchecked accesses
`vertex_data[tri.v0]`, `vertex_data[tri.v1]`, `vertex_data[tri.v2]` are undefined for an
index outside the buffer; that outcome is `none`. -/
def BVHTriangleRef.ctor (tri : TriangleRef) (vertex_data : List (Vertex F)) (index : Nat) :
    Option (BVHTriangleRef F) :=
  match vertex_data[tri.v0]?, vertex_data[tri.v1]?, vertex_data[tri.v2]? with
  | some v0, some v1, some v2 =>
    let bounds : AABB F :=
      { max := glmMax v0.pos (glmMax v1.pos v2.pos), min := glmMin v0.pos (glmMin v1.pos v2.pos) }
    some
      { v0 := v0.pos
        e1 := v1.pos.sub v0.pos
        e2 := v2.pos.sub v0.pos
        bounds :=
          { max := bounds.max.add (vec3.splat FloatOps.EPSILON)
            min := bounds.min.sub (vec3.splat FloatOps.EPSILON) }
        index := index }
  | _, _, _ => none

/-! ## `bvh.cpp` -/

/-- The loop of `buildTriangleRefList`, `for (unsigned i = 0; i < refs.size(); ++i)`, started
at counter `i` with `bvh_refs` already built. The counter is an `unsigned`, so `++i` wraps
at `2 ^ 32`. `fuel` bounds the number of loop tests. -/
def buildTriangleRefListLoop (refs : List TriangleRef) (vertex_data : List (Vertex F)) :
    Nat → Nat → List (BVHTriangleRef F) → LoopResult (List (BVHTriangleRef F))
  | 0, _, _ => .outOfFuel
  | fuel + 1, i, bvh_refs =>
    if i < refs.length then
      match refs[i]? with
      | some tri =>
        match BVHTriangleRef.ctor tri vertex_data i with
        | some r =>
          buildTriangleRefListLoop refs vertex_data fuel (toUInt32 (i + 1)) (bvh_refs ++ [r])
        | none => .outOfRange
      | none => .outOfRange
    else .returned bvh_refs

/-- The function `buildTriangleRefList(refs, vertex_data)`, run for at most `fuel` loop
tests. -/
def buildTriangleRefList (fuel : Nat) (refs : List TriangleRef) (vertex_data : List (Vertex F)) :
    LoopResult (List (BVHTriangleRef F)) :=
  buildTriangleRefListLoop refs vertex_data fuel 0 []

/-- The comparator of `sortBVHRefList`: compares the centroids
`(bounds.max + bounds.min) / 2.0f` on `axis`. -/
def centroidLess (axis : BVHAxis) (ref0 ref1 : BVHTriangleRef F) : Bool :=
  let c0 := (ref0.bounds.max.add ref0.bounds.min).half
  let c1 := (ref1.bounds.max.add ref1.bounds.min).half
  decide (c0.get axis < c1.get axis)

/-- The function `sortBVHRefList(refList, axis)`; the list sorted in place is returned. -/
def sortBVHRefList (S : StdSort (BVHTriangleRef F)) (refList : List (BVHTriangleRef F))
    (axis : BVHAxis) : List (BVHTriangleRef F) :=
  S.sort (centroidLess axis) refList

/-- The function `refListBounds(refList)`: a fold from the two sentinel corners. -/
def refListBounds (refList : List (BVHTriangleRef F)) : AABB F :=
  refList.foldl
    (fun bounds ref =>
      { max := glmMax ref.bounds.max bounds.max, min := glmMin ref.bounds.min bounds.min })
    { max := vec3.splat FloatOps.negBig, min := vec3.splat FloatOps.big }

/-- The axis selection of `buildBVHNode` (the `if` cascade over the extents of `bounds`). -/
def sortAxisOf (bounds : AABB F) : BVHAxis :=
  if FloatOps.sub bounds.max.x bounds.min.x < FloatOps.sub bounds.max.y bounds.min.y then
    if FloatOps.sub bounds.max.y bounds.min.y < FloatOps.sub bounds.max.z bounds.min.z then
      .Z_AXIS
    else
      .Y_AXIS
  else if FloatOps.sub bounds.max.x bounds.min.x < FloatOps.sub bounds.max.z bounds.min.z then
    .Z_AXIS
  else
    .X_AXIS

end Program

section Builder

variable {F : Type} [FloatOps F]

/-- The comparator of `sortBVHRefList` is a strict weak ordering, as `std::sort` requires. -/
theorem centroidLess_strictWeakOrdering (axis : BVHAxis) :
    StrictWeakOrdering (centroidLess (F := F) axis) := by
  refine ⟨?_, ?_, ?_⟩
  · intro a
    simp [centroidLess]
  · intro a b c hab hbc
    simp only [centroidLess, decide_eq_true_eq] at hab hbc ⊢
    exact lt_trans hab hbc
  · intro a b c hab hba hbc hcb
    simp only [centroidLess, decide_eq_false_iff_not, not_lt] at hab hba hbc hcb ⊢
    exact ⟨le_trans hbc hab, le_trans hba hcb⟩

/-- Sorting keeps the number of records. -/
theorem sortBVHRefList_length (S : StdSort (BVHTriangleRef F)) (refList : List (BVHTriangleRef F))
    (axis : BVHAxis) : (sortBVHRefList S refList axis).length = refList.length :=
  (S.perm _ refList (centroidLess_strictWeakOrdering axis)).length_eq

/-- The function `buildBVHNode(refList)`. The argument is sorted in place by the C++ code;
here the sorted vector is the local `sorted`. The freshly allocated node has an empty
`refList`, which the internal branch never assigns. The recursion is on the length of the
list: both halves of a list of more than ten records are shorter than the list. -/
def buildBVHNode (S : StdSort (BVHTriangleRef F)) (refList : List (BVHTriangleRef F)) :
    BVHBuildNode F :=
  let bounds := refListBounds refList
  if refList.length ≤ 10 then
    .leaf bounds refList
  else
    let sortAxis := sortAxisOf bounds
    let sorted := sortBVHRefList S refList sortAxis
    let mid := sorted.length / 2
    let leftRefs := sorted.take (mid + 1)
    let rightRefs := sorted.drop mid
    .node (refListBounds leftRefs) (refListBounds rightRefs)
      (buildBVHNode S leftRefs) (buildBVHNode S rightRefs) []
termination_by refList.length
decreasing_by
  all_goals simp_wf
  · rw [sortBVHRefList_length]; omega
  · rw [sortBVHRefList_length]; omega

/-- The function `buildBVHNode(refList)` run with a bound `fuel` on the depth of the
recursion; `none` means that the bound was reached before every branch ended in a leaf. -/
def buildBVHNodeFuel (S : StdSort (BVHTriangleRef F)) :
    Nat → List (BVHTriangleRef F) → Option (BVHBuildNode F)
  | 0, _ => none
  | fuel + 1, refList =>
    let bounds := refListBounds refList
    if refList.length ≤ 10 then
      some (.leaf bounds refList)
    else
      let sortAxis := sortAxisOf bounds
      let sorted := sortBVHRefList S refList sortAxis
      let mid := sorted.length / 2
      let leftRefs := sorted.take (mid + 1)
      let rightRefs := sorted.drop mid
      match buildBVHNodeFuel S fuel leftRefs, buildBVHNodeFuel S fuel rightRefs with
      | some left, some right =>
        some (.node (refListBounds leftRefs) (refListBounds rightRefs) left right [])
      | _, _ => none

/-- The assignment `bvh.nodeList[nodeIndex].rightOffsetEnd = value`. -/
def setRightOffsetEnd (nodeList : List (BVHNode F)) (nodeIndex : Nat) (value : Int) :
    List (BVHNode F) :=
  match nodeList[nodeIndex]? with
  | some node => nodeList.set nodeIndex { node with rightOffsetEnd := value }
  | none => nodeList

/-- The function `buildBVH(buildNode, bvh)`: returns the `uint32_t` result and the updated
`bvh`. The local `BVHNode node;` is not initialised: it starts as `uninit k`, where `k` is
the length of `bvh.nodeList` on entry (each call appends exactly one node, so `k` identifies
the call). In the last assignment the right operand, the recursive call, is evaluated before
the element reference. -/
def buildBVH (uninit : Nat → BVHNode F) : BVHBuildNode F → BVH F → Nat × BVH F
  | .leaf _ refList, bvh =>
    let node : BVHNode F :=
      { uninit bvh.nodeList.length with
        isLeafBegin := toInt32 bvh.refList.length
        rightOffsetEnd := toInt32 (bvh.refList.length + refList.length) }
    let bvh1 : BVH F := { nodeList := bvh.nodeList ++ [node], refList := bvh.refList ++ refList }
    (toUInt32 (bvh1.nodeList.length - 1), bvh1)
  | .node leftBounds rightBounds left right _, bvh =>
    let node : BVHNode F :=
      { uninit bvh.nodeList.length with
        isLeafBegin := -1
        leftBounds := leftBounds
        rightBounds := rightBounds }
    let bvh1 : BVH F := { bvh with nodeList := bvh.nodeList ++ [node] }
    let nodeIndex := toUInt32 (bvh1.nodeList.length - 1)
    let bvh2 := (buildBVH uninit left bvh1).2
    let r := buildBVH uninit right bvh2
    (nodeIndex, { r.2 with nodeList := setRightOffsetEnd r.2.nodeList nodeIndex (toInt32 r.1) })

end Builder

/-! ## Descriptions of a build tree used to state the properties -/

section TreeDescriptions

variable {F : Type} [FloatOps F]

/-- The flag `isLeaf` of a build node. -/
def BVHBuildNode.isLeaf : BVHBuildNode F → Bool
  | .leaf _ _ => true
  | .node _ _ _ _ _ => false

/-- Number of nodes of a build tree. -/
def BVHBuildNode.numNodes : BVHBuildNode F → Nat
  | .leaf _ _ => 1
  | .node _ _ left right _ => 1 + left.numNodes + right.numNodes

/-- Number of leaves of a build tree. -/
def BVHBuildNode.numLeaves : BVHBuildNode F → Nat
  | .leaf _ _ => 1
  | .node _ _ left right _ => left.numLeaves + right.numLeaves

/-- The record lists of the leaves, from left to right. -/
def BVHBuildNode.leafLists : BVHBuildNode F → List (List (BVHTriangleRef F))
  | .leaf _ refList => [refList]
  | .node _ _ left right _ => left.leafLists ++ right.leafLists

/-- The records of the leaves, from left to right. -/
def BVHBuildNode.allRefs : BVHBuildNode F → List (BVHTriangleRef F)
  | .leaf _ refList => refList
  | .node _ _ left right _ => left.allRefs ++ right.allRefs

/-- The nodes of a build tree in depth-first pre-order: a node, then its left subtree,
then its right subtree. -/
def BVHBuildNode.preorder : BVHBuildNode F → List (BVHBuildNode F)
  | .leaf leftBounds refList => [.leaf leftBounds refList]
  | .node leftBounds rightBounds left right refList =>
    .node leftBounds rightBounds left right refList :: (left.preorder ++ right.preorder)

/-- The pre-order layout of a build tree whose root lands in slot `i` of the node array
while the record array holds `r` records: a leaf is one node with the range that starts at
`r`; an internal node is followed by the layout of its left subtree, from slot `i + 1`,
then by that of its right subtree, whose first slot is the stored right offset. Range
begins, range ends and offsets are 32-bit signed fields. The boxes of a leaf slot are those
of `uninit i`: the leaf branch of `buildBVH` assigns neither. -/
def preorderLayout (uninit : Nat → BVHNode F) : BVHBuildNode F → Nat → Nat → List (BVHNode F)
  | .leaf _ refList, i, r =>
    [{ uninit i with
        isLeafBegin := toInt32 r
        rightOffsetEnd := toInt32 (r + refList.length) }]
  | .node leftBounds rightBounds left right _, i, r =>
    { uninit i with
        isLeafBegin := -1
        leftBounds := leftBounds
        rightBounds := rightBounds
        rightOffsetEnd := toInt32 (i + 1 + left.numNodes) } ::
      (preorderLayout uninit left (i + 1) r ++
        preorderLayout uninit right (i + 1 + left.numNodes) (r + left.allRefs.length))

/-- The leaf nodes of a node array, in array order: the nodes whose tag `isLeafBegin` is
non-negative. -/
def leafNodes (nodeList : List (BVHNode F)) : List (BVHNode F) :=
  nodeList.filter (fun n => decide (0 ≤ n.isLeafBegin))

/-- The ranges `[isLeafBegin, rightOffsetEnd)` of `nodes`, taken in order, run from `start`
to `stop` without gap or overlap: the first begins at `start`, each one begins where the
previous one ends, and the last ends at `stop`. -/
def rangesTile : List (BVHNode F) → Int → Int → Prop
  | [], start, stop => start = stop
  | n :: rest, start, stop =>
    n.isLeafBegin = start ∧ start ≤ n.rightOffsetEnd ∧ rangesTile rest n.rightOffsetEnd stop

/-- A flat node with its `rightOffsetEnd` field blanked. -/
def BVHNode.withoutOffset (n : BVHNode F) : BVHNode F := { n with rightOffsetEnd := 0 }

/-- The union of two boxes: component-wise minimum of the `min` corners and maximum of the
`max` corners. -/
def AABB.union (a b : AABB F) : AABB F := { min := glmMin a.min b.min, max := glmMax a.max b.max }

/-- The bounding box of a build node: a leaf's box is its `leftBounds`, an internal node's
box is the union of its `leftBounds` and `rightBounds`. -/
def BVHBuildNode.box : BVHBuildNode F → AABB F
  | .leaf leftBounds _ => leftBounds
  | .node leftBounds rightBounds _ _ _ => leftBounds.union rightBounds

/-- Every internal node of the tree stores the boxes of its two children. -/
def BVHBuildNode.childBoxesStored : BVHBuildNode F → Prop
  | .leaf _ _ => True
  | .node leftBounds rightBounds left right _ =>
    leftBounds = left.box ∧ rightBounds = right.box ∧ left.childBoxesStored ∧
      right.childBoxesStored

/-- The loop of `refListBounds` started from any box. -/
def boundsFrom (acc : AABB F) (refList : List (BVHTriangleRef F)) : AABB F :=
  refList.foldl (fun bounds ref => ref.bounds.union bounds) acc

/-- The two sentinel corners `refListBounds` starts from. -/
def sentinelBox : AABB F :=
  { max := vec3.splat FloatOps.negBig, min := vec3.splat FloatOps.big }

/-- What `buildTriangleRefList` promises about the first `n` records of `recs`: record `j`
carries index `j`, the position of the first vertex of triangle `j`, and the two edge
vectors from it. -/
def RecordsMatch (refs : List TriangleRef) (vertex_data : List (Vertex F))
    (recs : List (BVHTriangleRef F)) (n : Nat) : Prop :=
  recs.length = n ∧
    ∀ j, j < n →
      ∃ tri p0 p1 p2 r,
        refs[j]? = some tri ∧ vertex_data[tri.v0]? = some p0 ∧ vertex_data[tri.v1]? = some p1 ∧
          vertex_data[tri.v2]? = some p2 ∧ recs[j]? = some r ∧ r.index = j ∧ r.v0 = p0.pos ∧
          r.e1 = p1.pos.sub p0.pos ∧ r.e2 = p2.pos.sub p0.pos

/-- Height of a build tree: a leaf has height 0. -/
def BVHBuildNode.height : BVHBuildNode F → Nat
  | .leaf _ _ => 0
  | .node _ _ left right _ => 1 + max left.height right.height

/-- Number of internal nodes of a build tree. -/
def BVHBuildNode.numInternal : BVHBuildNode F → Nat
  | .leaf _ _ => 0
  | .node _ _ left right _ => 1 + left.numInternal + right.numInternal

/-- The extent `max[axis] - min[axis]` of a box, computed as `buildBVHNode` does. -/
def extent (bounds : AABB F) (axis : BVHAxis) : F :=
  FloatOps.sub (bounds.max.get axis) (bounds.min.get axis)

/-- The invariant `min[i] <= max[i]` on all three axes. -/
def minLeMax (bounds : AABB F) : Prop :=
  ∀ axis : BVHAxis, bounds.min.get axis ≤ bounds.max.get axis

/-- Every box stored in the tree satisfies `min[i] <= max[i]`: the `leftBounds` of each
leaf and the `leftBounds` and `rightBounds` of each internal node. -/
def BVHBuildNode.boxesMinLeMax : BVHBuildNode F → Prop
  | .leaf leftBounds _ => minLeMax leftBounds
  | .node leftBounds rightBounds left right _ =>
    minLeMax leftBounds ∧ minLeMax rightBounds ∧ left.boxesMinLeMax ∧ right.boxesMinLeMax

end TreeDescriptions

/-! ## Concrete data for evaluation -/

/-- The binary32 value of the literal `0.00001f`, which is `2748779 / 2 ^ 38`. -/
def eps32 : ℚ := 2748779 / 274877906944

/-- The binary32 value of the literal `100000000000000`. -/
def big32 : ℚ := 100000000376832

/-- Rational arithmetic as an instance of `FloatOps`: the three constants have their
binary32 values, while `+`, `-` and `/ 2` are exact (not rounded). It serves to instantiate
the general results; evaluations that depend on rounding are made over `Binary32`. -/
instance instFloatOpsRat : FloatOps ℚ where
  add := fun a b => a + b
  sub := fun a b => a - b
  half := fun a => a / 2
  EPSILON := eps32
  big := big32
  negBig := -big32

/-- The power `2 ^ e` of an integer exponent, as a rational. -/
def pow2 (e : Int) : ℚ :=
  if 0 ≤ e then ((2 ^ e.toNat : Nat) : ℚ) else 1 / ((2 ^ (-e).toNat : Nat) : ℚ)

/-- Halving `n` until it is below 2, at most `fuel` times: the number of halvings. -/
def bitLengthAux : Nat → Nat → Nat
  | 0, _ => 0
  | fuel + 1, n => if 2 ≤ n then bitLengthAux fuel (n / 2) + 1 else 0

/-- The natural number `k` with `2 ^ k <= n < 2 ^ (k + 1)`, for positive `n`. -/
def natLog2 (n : Nat) : Nat := bitLengthAux n n

/-- The integer `e` with `2 ^ e <= q < 2 ^ (e + 1)`, for a positive rational `q`. -/
def floorLog2 (q : ℚ) : Int :=
  let c : Int := (natLog2 q.num.natAbs : Int) - (natLog2 q.den : Int)
  if pow2 c ≤ q then c else c - 1

/-- Rounding of a rational to the nearest integer, ties to the even one. -/
def roundHalfEven (q : ℚ) : Int :=
  let f := Rat.floor q
  if q - f < 1 / 2 then f
  else if 1 / 2 < q - f then f + 1
  else if f % 2 = 0 then f
  else f + 1

/-- Rounding of a rational to binary32, to nearest with ties to even: 24 significant bits,
exponents from `-126` up (subnormals included). Overflow to infinity is not represented:
the values rounded here stay far below the largest finite float. -/
def round32 (q : ℚ) : ℚ :=
  if q = 0 then 0
  else
    let e := max (floorLog2 |q|) (-126)
    let ulp := pow2 (e - 23)
    (roundHalfEven (q / ulp) : ℚ) * ulp

/-- Finite binary32 numbers, represented by their rational values. The operations of
`instFloatOpsBinary32` return representable values, so a computation that starts from
representable inputs stays within binary32. -/
def Binary32 : Type := ℚ

/-- The binary32 number of a rational value that is representable. -/
def Binary32.ofRat (q : ℚ) : Binary32 := q

/-- Arithmetic of binary32 as an instance of `FloatOps`: the order of the rationals, and
each operation rounded to binary32. -/
instance instFloatOpsBinary32 : FloatOps Binary32 :=
  { (inferInstanceAs (LinearOrder ℚ)) with
    add := fun (a b : ℚ) => round32 (a + b)
    sub := fun (a b : ℚ) => round32 (a - b)
    half := fun (a : ℚ) => round32 (a / 2)
    EPSILON := round32 (1 / 100000)
    big := round32 100000000000000
    negBig := round32 (-100000000000000) }

/-- A vertex at `(x, y, z)` in binary32, with zero normal and texture coordinate. -/
def vertexAt32 (x y z : ℚ) : Vertex Binary32 :=
  ⟨⟨Binary32.ofRat x, Binary32.ofRat y, Binary32.ofRat z⟩,
    ⟨Binary32.ofRat 0, Binary32.ofRat 0, Binary32.ofRat 0⟩,
    ⟨Binary32.ofRat 0, Binary32.ofRat 0⟩⟩

/-- The vector `(x, y, z)` in binary32. -/
def vec32 (x y z : ℚ) : vec3 Binary32 := ⟨Binary32.ofRat x, Binary32.ofRat y, Binary32.ofRat z⟩

/-- Three vertices at distance 256 from the origin, one on each axis. -/
def farVertices32 : List (Vertex Binary32) :=
  [vertexAt32 256 0 0, vertexAt32 0 256 0, vertexAt32 0 0 256]

/-- A binary32 record whose box has `min = -2 ^ 48` and `max = -2 ^ 47` on every axis. -/
def farRef32 : BVHTriangleRef Binary32 :=
  ⟨vec32 0 0 0, vec32 0 0 0, vec32 0 0 0,
    ⟨vec32 (-281474976710656) (-281474976710656) (-281474976710656),
      vec32 (-140737488355328) (-140737488355328) (-140737488355328)⟩, 0⟩

/-- The box with both corners at the origin. -/
def zeroBox : AABB ℚ := ⟨⟨0, 0, 0⟩, ⟨0, 0, 0⟩⟩

/-- A flat node whose bytes are all zero. -/
def zeroNode : BVHNode ℚ := ⟨zeroBox, zeroBox, 0, 0⟩

/-- The cube with corners `(lo, lo, lo)` and `(hi, hi, hi)`. -/
def cubeBox (lo hi : ℚ) : AABB ℚ := ⟨⟨lo, lo, lo⟩, ⟨hi, hi, hi⟩⟩

/-- A record with box `cubeBox lo hi` and original index `i`. -/
def cubeRef (lo hi : ℚ) (i : Nat) : BVHTriangleRef ℚ :=
  ⟨⟨lo, lo, lo⟩, ⟨0, 0, 0⟩, ⟨0, 0, 0⟩, cubeBox lo hi, i⟩

/-- A build tree with two leaves, of two records and one record. -/
def twoLeafTree : BVHBuildNode ℚ :=
  .node (cubeBox 0 2) (cubeBox 1 3)
    (.leaf (cubeBox 0 2) [cubeRef 0 1 0, cubeRef 1 2 1]) (.leaf (cubeBox 1 3) [cubeRef 1 3 2]) []

/-- Eleven records in descending order of position: record `k` has the box `cubeBox k (k+1)`
and original index `k`. -/
def elevenRefs : List (BVHTriangleRef ℚ) :=
  [cubeRef 10 11 10, cubeRef 9 10 9, cubeRef 8 9 8, cubeRef 7 8 7, cubeRef 6 7 6, cubeRef 5 6 5,
    cubeRef 4 5 4, cubeRef 3 4 3, cubeRef 2 3 2, cubeRef 1 2 1, cubeRef 0 1 0]

/-- A record whose box has `min = -2 ^ 48` and `max = -2 ^ 47` on every axis. -/
def farRef : BVHTriangleRef ℚ :=
  ⟨⟨0, 0, 0⟩, ⟨0, 0, 0⟩, ⟨0, 0, 0⟩, cubeBox (-281474976710656) (-140737488355328), 0⟩

/-- A vertex at `(x, y, z)` with zero normal and texture coordinate. -/
def vertexAt (x y z : ℚ) : Vertex ℚ := ⟨⟨x, y, z⟩, ⟨0, 0, 0⟩, ⟨0, 0⟩⟩

/-- A vertex buffer of four vertices. -/
def sampleVertices : List (Vertex ℚ) :=
  [vertexAt 0 0 0, vertexAt 1 0 0, vertexAt 0 1 0, vertexAt 0 0 1]

/-- Two triangles over `sampleVertices`. -/
def sampleTriangles : List TriangleRef := [⟨0, 1, 2⟩, ⟨1, 2, 3⟩]

/-- The records `buildTriangleRefList` builds for `sampleTriangles` over `sampleVertices`
with the exact sums of the carrier `ℚ`; `buildTriangleRefList_sample32` gives the records
of binary32, where `1 + EPSILON` is rounded. -/
def sampleRecords : List (BVHTriangleRef ℚ) :=
  [⟨⟨0, 0, 0⟩, ⟨1, 0, 0⟩, ⟨0, 1, 0⟩,
      ⟨⟨-eps32, -eps32, -eps32⟩, ⟨1 + eps32, 1 + eps32, eps32⟩⟩, 0⟩,
    ⟨⟨1, 0, 0⟩, ⟨-1, 1, 0⟩, ⟨-1, 0, 1⟩,
      ⟨⟨-eps32, -eps32, -eps32⟩, ⟨1 + eps32, 1 + eps32, 1 + eps32⟩⟩, 1⟩]

/-- Eleven copies of one record: all centroids coincide on every axis. -/
def elevenSameRefs : List (BVHTriangleRef ℚ) := List.replicate 11 (cubeRef 0 1 0)

/-! # Properties -/

/-! ## Facts about machine integers -/

theorem toUInt32_of_lt {n : Nat} (h : n < 2 ^ 32) : toUInt32 n = n := by
  unfold toUInt32; omega

theorem toInt32_of_lt {n : Nat} (h : n < 2 ^ 31) : toInt32 n = (n : Int) := by
  unfold toInt32
  have h1 : n % 2 ^ 32 = n := by omega
  rw [h1, if_pos h]

/-! ## Facts about `buildBVH` -/

section FlattenFacts

variable {F : Type} [FloatOps F]

theorem BVHBuildNode.numNodes_pos (t : BVHBuildNode F) : 0 < t.numNodes := by
  cases t <;> simp [BVHBuildNode.numNodes]

theorem preorderLayout_length (uninit : Nat → BVHNode F) (t : BVHBuildNode F) :
    ∀ i r, (preorderLayout uninit t i r).length = t.numNodes := by
  induction t with
  | leaf lb refs => intro i r; simp [preorderLayout, BVHBuildNode.numNodes]
  | node lb rb l rt refs ihl ihr =>
    intro i r
    simp [preorderLayout, BVHBuildNode.numNodes, ihl, ihr]
    omega

theorem setRightOffsetEnd_length (nodeList : List (BVHNode F)) (k : Nat) (v : Int) :
    (setRightOffsetEnd nodeList k v).length = nodeList.length := by
  unfold setRightOffsetEnd
  split <;> simp

theorem setRightOffsetEnd_append (xs rest : List (BVHNode F)) (n : BVHNode F) (v : Int) :
    setRightOffsetEnd (xs ++ n :: rest) xs.length v =
      xs ++ { n with rightOffsetEnd := v } :: rest := by
  have h : (xs ++ n :: rest)[xs.length]? = some n := by
    rw [List.getElem?_append_right (le_refl _)]; simp
  unfold setRightOffsetEnd
  rw [h]
  simp

theorem setRightOffsetEnd_withoutOffset (nodeList : List (BVHNode F)) (k : Nat) (v : Int) :
    (setRightOffsetEnd nodeList k v).map BVHNode.withoutOffset =
      nodeList.map BVHNode.withoutOffset := by
  unfold setRightOffsetEnd
  split
  · rename_i node hnode
    apply List.ext_getElem?
    intro j
    simp only [List.getElem?_map, List.getElem?_set]
    by_cases hj : k = j
    · subst hj
      have hk : k < nodeList.length := by
        rcases List.getElem?_eq_some_iff.mp hnode with ⟨hk, _⟩
        exact hk
      simp [hk, hnode, BVHNode.withoutOffset]
    · simp [hj]
  · rfl

/-- The record array after `buildBVH`: the records of the leaves are appended, from left to
right, whatever the sizes involved. -/
theorem buildBVH_refList (uninit : Nat → BVHNode F) (t : BVHBuildNode F) :
    ∀ b : BVH F, (buildBVH uninit t b).2.refList = b.refList ++ t.allRefs := by
  induction t with
  | leaf lb refs => intro b; simp [buildBVH, BVHBuildNode.allRefs]
  | node lb rb l rt refs ihl ihr =>
    intro b
    simp [buildBVH, BVHBuildNode.allRefs, ihl, ihr]

/-- The node array after `buildBVH`, up to the `rightOffsetEnd` fields: the pre-order
layout is appended, whatever the sizes involved. -/
theorem buildBVH_nodeList_withoutOffset (uninit : Nat → BVHNode F) (t : BVHBuildNode F) :
    ∀ b : BVH F, (buildBVH uninit t b).2.nodeList.map BVHNode.withoutOffset =
      (b.nodeList ++ preorderLayout uninit t b.nodeList.length b.refList.length).map
        BVHNode.withoutOffset := by
  induction t with
  | leaf lb refs => intro b; simp [buildBVH, preorderLayout, BVHNode.withoutOffset]
  | node lb rb l rt refs ihl ihr =>
    intro b
    have hlen : ∀ (xs ys : List (BVHNode F)),
        xs.map BVHNode.withoutOffset = ys.map BVHNode.withoutOffset → xs.length = ys.length := by
      intro xs ys h
      have := congrArg List.length h
      simpa using this
    simp only [buildBVH, preorderLayout, setRightOffsetEnd_withoutOffset]
    have h1 := ihl
      { b with
        nodeList := b.nodeList ++
          [{ uninit b.nodeList.length with
              isLeafBegin := -1, leftBounds := lb, rightBounds := rb }] }
    have h2 := hlen _ _ h1
    rw [ihr, buildBVH_refList, List.map_append, h1, h2]
    simp [preorderLayout_length, BVHNode.withoutOffset, Nat.add_assoc, Nat.add_comm,
      Nat.add_left_comm]

/-- The result of `buildBVH` while every slot index fits in a `uint32_t`: the index
returned is the length of the node array on entry, the pre-order layout is appended to the
node array and the leaves' records to the record array. -/
theorem buildBVH_eq (uninit : Nat → BVHNode F) (t : BVHBuildNode F) :
    ∀ b : BVH F, b.nodeList.length + t.numNodes ≤ 2 ^ 32 →
      buildBVH uninit t b =
        (b.nodeList.length,
          { nodeList := b.nodeList ++ preorderLayout uninit t b.nodeList.length b.refList.length
            refList := b.refList ++ t.allRefs }) := by
  induction t with
  | leaf lb refs =>
    intro b h
    simp only [BVHBuildNode.numNodes] at h
    simp only [buildBVH, preorderLayout, BVHBuildNode.allRefs, List.length_append,
      List.length_singleton, Nat.add_sub_cancel]
    rw [toUInt32_of_lt (by omega)]
  | node lb rb l rt refs ihl ihr =>
    intro b h
    simp only [BVHBuildNode.numNodes] at h
    have hl := l.numNodes_pos
    have hr := rt.numNodes_pos
    simp only [buildBVH, preorderLayout, BVHBuildNode.allRefs, List.length_append,
      List.length_singleton, Nat.add_sub_cancel]
    rw [ihl _ (by simp; omega)]
    simp only [List.length_append, List.length_singleton]
    rw [ihr _ (by simp [preorderLayout_length]; omega)]
    simp only [List.length_append, List.length_singleton, preorderLayout_length]
    rw [toUInt32_of_lt (by omega)]
    have := setRightOffsetEnd_append b.nodeList
      (preorderLayout uninit l (b.nodeList.length + 1) b.refList.length ++
        preorderLayout uninit rt (b.nodeList.length + 1 + l.numNodes)
          (b.refList.length + l.allRefs.length))
      { uninit b.nodeList.length with isLeafBegin := -1, leftBounds := lb, rightBounds := rb }
      (toInt32 (b.nodeList.length + 1 + l.numNodes))
    simp only [List.append_assoc, List.singleton_append, List.cons_append,
      List.nil_append] at this ⊢
    rw [this]

/-- Tags of the pre-order layout: a slot is tagged non-negative exactly when the build node
it stands for is a leaf, and an internal slot carries `-1`. -/
theorem preorderLayout_tags (uninit : Nat → BVHNode F) (t : BVHBuildNode F) :
    ∀ i r, r + t.allRefs.length < 2 ^ 31 →
      List.Forall₂
        (fun (bn : BVHBuildNode F) (fn : BVHNode F) =>
          (0 ≤ fn.isLeafBegin ↔ bn.isLeaf = true) ∧ (bn.isLeaf = false → fn.isLeafBegin = -1))
        t.preorder (preorderLayout uninit t i r) := by
  induction t with
  | leaf lb refs =>
    intro i r h
    simp only [BVHBuildNode.allRefs] at h
    simp only [BVHBuildNode.preorder, preorderLayout, List.forall₂_cons, List.Forall₂.nil,
      and_true, BVHBuildNode.isLeaf]
    rw [toInt32_of_lt (by omega)]
    simp
  | node lb rb l rt refs ihl ihr =>
    intro i r h
    simp only [BVHBuildNode.allRefs, List.length_append] at h
    simp only [BVHBuildNode.preorder, preorderLayout, List.forall₂_cons, BVHBuildNode.isLeaf]
    refine ⟨by simp, ?_⟩
    exact List.rel_append (ihl _ _ (by omega)) (ihr _ _ (by omega))

theorem rangesTile_append (xs ys : List (BVHNode F)) :
    ∀ start mid stop, rangesTile xs start mid → rangesTile ys mid stop →
      rangesTile (xs ++ ys) start stop := by
  induction xs with
  | nil =>
    intro start mid stop h1 h2
    simp only [rangesTile] at h1
    subst h1
    simpa using h2
  | cons n rest ih =>
    intro start mid stop h1 h2
    simp only [rangesTile, List.cons_append] at h1 ⊢
    exact ⟨h1.1, h1.2.1, ih _ _ _ h1.2.2 h2⟩

/-- Leaf ranges of the pre-order layout, inside any record array that holds the records of
the tree from position `r` on. -/
theorem preorderLayout_leaf_ranges (uninit : Nat → BVHNode F) (t : BVHBuildNode F) :
    ∀ (i r : Nat) (pre post : List (BVHTriangleRef F)), pre.length = r →
      r + t.allRefs.length < 2 ^ 31 →
      List.Forall₂
          (fun (fn : BVHNode F) (refs : List (BVHTriangleRef F)) =>
            fn.rightOffsetEnd = fn.isLeafBegin + (refs.length : Int) ∧
              ((pre ++ t.allRefs ++ post).drop fn.isLeafBegin.toNat).take refs.length = refs)
          (leafNodes (preorderLayout uninit t i r)) t.leafLists ∧
        rangesTile (leafNodes (preorderLayout uninit t i r)) (r : Int)
          ((r + t.allRefs.length : Nat) : Int) := by
  induction t with
  | leaf lb refs =>
    intro i r pre post hpre h
    simp only [BVHBuildNode.allRefs] at h ⊢
    simp only [preorderLayout, leafNodes, BVHBuildNode.leafLists]
    rw [toInt32_of_lt (by omega), toInt32_of_lt h]
    subst hpre
    simp [rangesTile, List.append_assoc]
  | node lb rb l rt refs ihl ihr =>
    intro i r pre post hpre h
    simp only [BVHBuildNode.allRefs, List.length_append] at h ⊢
    have hL := ihl (i + 1) r pre (rt.allRefs ++ post) hpre (by omega)
    have hR := ihr (i + 1 + l.numNodes) (r + l.allRefs.length) (pre ++ l.allRefs) post
      (by simp [hpre]) (by omega)
    have hfilter : leafNodes (preorderLayout uninit (.node lb rb l rt refs) i r) =
        leafNodes (preorderLayout uninit l (i + 1) r) ++
          leafNodes (preorderLayout uninit rt (i + 1 + l.numNodes) (r + l.allRefs.length)) := by
      simp [leafNodes, preorderLayout]
    rw [hfilter]
    have e1 : pre ++ (l.allRefs ++ rt.allRefs) ++ post = pre ++ l.allRefs ++ (rt.allRefs ++ post) := by
      simp
    have e2 : pre ++ (l.allRefs ++ rt.allRefs) ++ post = pre ++ l.allRefs ++ rt.allRefs ++ post := by
      simp
    refine ⟨?_, ?_⟩
    · simp only [BVHBuildNode.leafLists]
      refine List.rel_append ?_ ?_
      · rw [e1]; exact hL.1
      · rw [e2]; exact hR.1
    · refine rangesTile_append _ _ _ _ _ hL.2 ?_
      have := hR.2
      simpa [Nat.add_assoc] using this

end FlattenFacts

/-! ## Facts about `buildBVHNode` -/

section BuilderFacts

variable {F : Type} [FloatOps F]

/-- The leaf branch of `buildBVHNode`. -/
theorem buildBVHNode_leaf (S : StdSort (BVHTriangleRef F)) (refList : List (BVHTriangleRef F))
    (h : refList.length ≤ 10) :
    buildBVHNode S refList = .leaf (refListBounds refList) refList := by
  rw [buildBVHNode]
  simp [h]

/-- The internal branch of `buildBVHNode`. -/
theorem buildBVHNode_node (S : StdSort (BVHTriangleRef F)) (refList : List (BVHTriangleRef F))
    (h : 10 < refList.length) :
    buildBVHNode S refList =
      .node
        (refListBounds
          ((sortBVHRefList S refList (sortAxisOf (refListBounds refList))).take
            ((sortBVHRefList S refList (sortAxisOf (refListBounds refList))).length / 2 + 1)))
        (refListBounds
          ((sortBVHRefList S refList (sortAxisOf (refListBounds refList))).drop
            ((sortBVHRefList S refList (sortAxisOf (refListBounds refList))).length / 2)))
        (buildBVHNode S
          ((sortBVHRefList S refList (sortAxisOf (refListBounds refList))).take
            ((sortBVHRefList S refList (sortAxisOf (refListBounds refList))).length / 2 + 1)))
        (buildBVHNode S
          ((sortBVHRefList S refList (sortAxisOf (refListBounds refList))).drop
            ((sortBVHRefList S refList (sortAxisOf (refListBounds refList))).length / 2)))
        [] := by
  rw [buildBVHNode]
  simp [Nat.not_le.mpr h]

/-- One step of the loop of `refListBounds`. -/
theorem refListBounds_step_eq (bounds : AABB F) (ref : BVHTriangleRef F) :
    ({ max := glmMax ref.bounds.max bounds.max, min := glmMin ref.bounds.min bounds.min } :
        AABB F) = ref.bounds.union bounds := rfl

theorem AABB.union_comm (a b : AABB F) : a.union b = b.union a := by
  simp [AABB.union, glmMax, glmMin, max_comm, min_comm]

theorem AABB.union_assoc (a b c : AABB F) : (a.union b).union c = a.union (b.union c) := by
  simp [AABB.union, glmMax, glmMin, max_assoc, min_assoc]

theorem AABB.union_self (a : AABB F) : a.union a = a := by
  simp [AABB.union, glmMax, glmMin]

theorem AABB.union_left_comm (a b c : AABB F) : a.union (b.union c) = b.union (a.union c) := by
  rw [← AABB.union_assoc, AABB.union_comm a b, AABB.union_assoc]

theorem refListBounds_eq_boundsFrom (refList : List (BVHTriangleRef F)) :
    refListBounds refList = boundsFrom sentinelBox refList := rfl

theorem boundsFrom_union (a : AABB F) (refList : List (BVHTriangleRef F)) :
    ∀ c, boundsFrom (a.union c) refList = a.union (boundsFrom c refList) := by
  induction refList with
  | nil => intro c; rfl
  | cons r rest ih =>
    intro c
    simp only [boundsFrom, List.foldl_cons] at ih ⊢
    rw [AABB.union_left_comm, ih]

theorem boundsFrom_append (acc : AABB F) (xs ys : List (BVHTriangleRef F)) :
    boundsFrom acc (xs ++ ys) = boundsFrom (boundsFrom acc xs) ys := by
  simp [boundsFrom, List.foldl_append]

/-- The box of a concatenation is the union of the boxes of the parts. -/
theorem refListBounds_append (xs ys : List (BVHTriangleRef F)) :
    (refListBounds xs).union (refListBounds ys) = refListBounds (xs ++ ys) := by
  simp only [refListBounds_eq_boundsFrom]
  rw [boundsFrom_append, ← boundsFrom_union]
  congr 1
  have h := boundsFrom_union (sentinelBox (F := F)) xs sentinelBox
  rw [AABB.union_self] at h
  rw [AABB.union_comm, ← h]

/-- The box of a list does not depend on the order of its records. -/
theorem refListBounds_perm {xs ys : List (BVHTriangleRef F)} (h : xs.Perm ys) :
    refListBounds xs = refListBounds ys := by
  simp only [refListBounds_eq_boundsFrom, boundsFrom]
  refine List.Perm.foldl_eq' h (fun x _ y _ z => ?_) _
  exact AABB.union_left_comm _ _ _

/-- Counting a record twice does not change the box. -/
theorem refListBounds_dup (xs rest : List (BVHTriangleRef F)) (x : BVHTriangleRef F) :
    refListBounds (xs ++ x :: x :: rest) = refListBounds (xs ++ x :: rest) := by
  simp only [refListBounds_eq_boundsFrom, boundsFrom, List.foldl_append, List.foldl_cons]
  rw [← AABB.union_assoc, AABB.union_self]

/-- The boxes of the two overlapping halves together give the box of the whole list. -/
theorem refListBounds_split (xs : List (BVHTriangleRef F)) (m : Nat) (hm : m < xs.length) :
    (refListBounds (xs.take (m + 1))).union (refListBounds (xs.drop m)) = refListBounds xs := by
  rw [refListBounds_append]
  have h1 : xs.take (m + 1) = xs.take m ++ [xs[m]] := by
    rw [List.take_succ, List.getElem?_eq_getElem hm]
    rfl
  have h2 : xs.drop m = xs[m] :: xs.drop (m + 1) := List.drop_eq_getElem_cons hm
  rw [h1, h2, List.append_assoc, List.singleton_append, refListBounds_dup, ← h2,
    List.take_append_drop]

theorem union_max_get (a b : AABB F) (axis : BVHAxis) :
    (a.union b).max.get axis = max (a.max.get axis) (b.max.get axis) := by
  cases axis <;> rfl

theorem union_min_get (a b : AABB F) (axis : BVHAxis) :
    (a.union b).min.get axis = min (a.min.get axis) (b.min.get axis) := by
  cases axis <;> rfl

/-- The `max` corner computed by the loop of `refListBounds`: it dominates the start value
and every record, and it is the start value or the value of some record. -/
theorem boundsFrom_max (axis : BVHAxis) (refList : List (BVHTriangleRef F)) :
    ∀ acc : AABB F,
      acc.max.get axis ≤ (boundsFrom acc refList).max.get axis ∧
      (∀ r ∈ refList, r.bounds.max.get axis ≤ (boundsFrom acc refList).max.get axis) ∧
      ((boundsFrom acc refList).max.get axis = acc.max.get axis ∨
        ∃ r ∈ refList, (boundsFrom acc refList).max.get axis = r.bounds.max.get axis) := by
  induction refList with
  | nil => intro acc; simp [boundsFrom]
  | cons r rest ih =>
    intro acc
    have h := ih (r.bounds.union acc)
    have hstep : boundsFrom acc (r :: rest) = boundsFrom (r.bounds.union acc) rest := rfl
    rw [hstep]
    rw [union_max_get] at h
    refine ⟨le_trans (le_max_right _ _) h.1, ?_, ?_⟩
    · intro r' hr'
      rcases List.mem_cons.mp hr' with rfl | hr'
      · exact le_trans (le_max_left _ _) h.1
      · exact h.2.1 r' hr'
    · rcases h.2.2 with h1 | ⟨r', hr', h1⟩
      · rcases max_choice (r.bounds.max.get axis) (acc.max.get axis) with h2 | h2
        · exact Or.inr ⟨r, List.mem_cons_self _ _, by rw [h1, h2]⟩
        · exact Or.inl (by rw [h1, h2])
      · exact Or.inr ⟨r', List.mem_cons_of_mem _ hr', h1⟩

/-- The `min` corner computed by the loop of `refListBounds`: it is below the start value
and every record, and it is the start value or the value of some record. -/
theorem boundsFrom_min (axis : BVHAxis) (refList : List (BVHTriangleRef F)) :
    ∀ acc : AABB F,
      (boundsFrom acc refList).min.get axis ≤ acc.min.get axis ∧
      (∀ r ∈ refList, (boundsFrom acc refList).min.get axis ≤ r.bounds.min.get axis) ∧
      ((boundsFrom acc refList).min.get axis = acc.min.get axis ∨
        ∃ r ∈ refList, (boundsFrom acc refList).min.get axis = r.bounds.min.get axis) := by
  induction refList with
  | nil => intro acc; simp [boundsFrom]
  | cons r rest ih =>
    intro acc
    have h := ih (r.bounds.union acc)
    have hstep : boundsFrom acc (r :: rest) = boundsFrom (r.bounds.union acc) rest := rfl
    rw [hstep]
    rw [union_min_get] at h
    refine ⟨le_trans h.1 (min_le_right _ _), ?_, ?_⟩
    · intro r' hr'
      rcases List.mem_cons.mp hr' with rfl | hr'
      · exact le_trans h.1 (min_le_left _ _)
      · exact h.2.1 r' hr'
    · rcases h.2.2 with h1 | ⟨r', hr', h1⟩
      · rcases min_choice (r.bounds.min.get axis) (acc.min.get axis) with h2 | h2
        · exact Or.inr ⟨r, List.mem_cons_self _ _, by rw [h1, h2]⟩
        · exact Or.inl (by rw [h1, h2])
      · exact Or.inr ⟨r', List.mem_cons_of_mem _ hr', h1⟩

theorem sentinelBox_max_get (axis : BVHAxis) :
    (sentinelBox (F := F)).max.get axis = FloatOps.negBig := by
  cases axis <;> rfl

theorem sentinelBox_min_get (axis : BVHAxis) :
    (sentinelBox (F := F)).min.get axis = FloatOps.big := by
  cases axis <;> rfl

/-- The box of the tree built from a list is the box of the list, and every internal node
of the tree stores the boxes of its children. -/
theorem buildBVHNode_box_aux (S : StdSort (BVHTriangleRef F)) :
    ∀ (n : Nat) (refList : List (BVHTriangleRef F)), refList.length = n →
      (buildBVHNode S refList).box = refListBounds refList ∧
        (buildBVHNode S refList).childBoxesStored := by
  intro n
  induction n using Nat.strong_induction_on with
  | _ n ih =>
    intro refList hn
    by_cases h : refList.length ≤ 10
    · rw [buildBVHNode_leaf S refList h]
      exact ⟨rfl, trivial⟩
    · have h' : 10 < refList.length := Nat.not_le.mp h
      have hlen := sortBVHRefList_length S refList (sortAxisOf (refListBounds refList))
      have hperm : (sortBVHRefList S refList (sortAxisOf (refListBounds refList))).Perm refList :=
        S.perm _ refList (centroidLess_strictWeakOrdering _)
      rw [buildBVHNode_node S refList h']
      have hL := ih ((sortBVHRefList S refList (sortAxisOf (refListBounds refList))).take
          ((sortBVHRefList S refList (sortAxisOf (refListBounds refList))).length / 2 + 1)).length
        (by rw [List.length_take, hlen]; omega) _ rfl
      have hR := ih ((sortBVHRefList S refList (sortAxisOf (refListBounds refList))).drop
          ((sortBVHRefList S refList (sortAxisOf (refListBounds refList))).length / 2)).length
        (by rw [List.length_drop, hlen]; omega) _ rfl
      refine ⟨?_, hL.1.symm, hR.1.symm, hL.2, hR.2⟩
      simp only [BVHBuildNode.box]
      rw [refListBounds_split _ _ (by rw [hlen]; omega)]
      exact refListBounds_perm hperm

end BuilderFacts

/-! ## The flattener `buildBVH` -/

section FlattenClaims

variable {F : Type} [FloatOps F]

/-- The `uint32_t` result of `buildBVH` on a leaf when `2 ^ 32` nodes are already present. -/
theorem buildBVH_leaf_result_of_length (uninit : Nat → BVHNode F) (leftBounds : AABB F)
    (refList : List (BVHTriangleRef F)) (b : BVH F) (h : b.nodeList.length = 2 ^ 32) :
    (buildBVH uninit (.leaf leftBounds refList) b).1 = 0 := by
  simp [buildBVH, toUInt32, h]

/-- C1 (amended). For every build tree `t` and every BVH state `b` whose node array has
length `i`, provided `i` plus the number of nodes of `t` is at most `2 ^ 31` (so that every
slot index fits the `uint32_t` result and the `int32_t` field), `buildBVH` returns `i`,
leaves the `i` nodes already present unchanged and appends the nodes of `t` in depth-first
pre-order. When `t` is internal, slot `i` holds the boxes copied from `t`, the tag `-1` and
the right offset `i + 1 + (number of nodes of the left subtree)`; the left subtree occupies
the slots from `i + 1`, the right subtree those from the stored right offset. -/
theorem buildBVH_preorder (uninit : Nat → BVHNode F) (t : BVHBuildNode F) (b : BVH F)
    (h : b.nodeList.length + t.numNodes ≤ 2 ^ 31) :
    (buildBVH uninit t b).1 = b.nodeList.length ∧
    (buildBVH uninit t b).2.nodeList.take b.nodeList.length = b.nodeList ∧
    (buildBVH uninit t b).2.nodeList.drop b.nodeList.length =
      preorderLayout uninit t b.nodeList.length b.refList.length ∧
    ∀ leftBounds rightBounds left right refList,
      t = .node leftBounds rightBounds left right refList →
      (buildBVH uninit t b).2.nodeList[b.nodeList.length]? =
        some
          { leftBounds := leftBounds
            rightBounds := rightBounds
            isLeafBegin := -1
            rightOffsetEnd := ((b.nodeList.length + 1 + left.numNodes : Nat) : Int) } ∧
      ((buildBVH uninit t b).2.nodeList.drop (b.nodeList.length + 1)).take left.numNodes =
        preorderLayout uninit left (b.nodeList.length + 1) b.refList.length ∧
      (buildBVH uninit t b).2.nodeList.drop (b.nodeList.length + 1 + left.numNodes) =
        preorderLayout uninit right (b.nodeList.length + 1 + left.numNodes)
          (b.refList.length + left.allRefs.length) := by
  have heq := buildBVH_eq uninit t b (by omega)
  rw [heq]
  refine ⟨rfl, by simp, by simp, ?_⟩
  intro lb rb l r refs ht
  subst ht
  simp only [BVHBuildNode.numNodes] at h
  have hr := r.numNodes_pos
  have hoff : toInt32 (b.nodeList.length + 1 + l.numNodes) =
      ((b.nodeList.length + 1 + l.numNodes : Nat) : Int) := toInt32_of_lt (by omega)
  simp only [preorderLayout, hoff]
  have hA := preorderLayout_length uninit l (b.nodeList.length + 1) b.refList.length
  refine ⟨?_, ?_, ?_⟩
  · rw [List.getElem?_append_right (le_refl _)]
    simp
  · rw [List.drop_append]
    simp only [List.drop_succ_cons, List.drop_zero]
    rw [← hA, List.take_left]
  · rw [Nat.add_assoc, List.drop_append, Nat.add_comm 1, List.drop_succ_cons, ← hA,
      List.drop_left]

/-- Witness for C1: the two-leaf tree flattened into an empty BVH. -/
theorem buildBVH_preorder_witness :
    (buildBVH (fun _ => zeroNode) twoLeafTree ⟨[], []⟩).1 = 0 ∧
      (buildBVH (fun _ => zeroNode) twoLeafTree ⟨[], []⟩).2.nodeList.drop 0 =
        preorderLayout (fun _ => zeroNode) twoLeafTree 0 0 :=
  ⟨(buildBVH_preorder (fun _ => zeroNode) twoLeafTree ⟨[], []⟩ (by decide)).1,
    (buildBVH_preorder (fun _ => zeroNode) twoLeafTree ⟨[], []⟩ (by decide)).2.2.1⟩

/-- C1 (counterexample). With `2 ^ 32` nodes already present, the `uint32_t` result of
`buildBVH` on a leaf is `0`, not the length `2 ^ 32` of the node array on entry. -/
theorem buildBVH_result_wraps :
    (buildBVH (fun _ => zeroNode) (.leaf zeroBox [])
        ⟨List.replicate (2 ^ 32) zeroNode, []⟩).1 ≠ (List.replicate (2 ^ 32) zeroNode).length := by
  rw [buildBVH_leaf_result_of_length _ _ _ _ (List.length_replicate _ _),
    List.length_replicate]
  decide

/-- C2 (amended). For every build tree with fewer than `2 ^ 31` records and at most `2 ^ 32`
nodes: (1) a leaf visited in state `b` gets `isLeafBegin` = the length of `b.refList` and
`rightOffsetEnd = isLeafBegin +` its number of records, and its records are appended;
(2) after flattening into an empty BVH, the leaf nodes in node-array order match the leaves
from left to right, each with `rightOffsetEnd = isLeafBegin +` the leaf's record count and
with the slice `refList[isLeafBegin .. rightOffsetEnd)` equal to the leaf's record list;
(3) these ranges are consecutive and tile `[0, |refList|)`; (4) a single-record input gives
one leaf node with range `[0, 1)`. -/
theorem buildBVH_leaf_ranges (uninit : Nat → BVHNode F) (t : BVHBuildNode F)
    (hrefs : t.allRefs.length < 2 ^ 31) (hnodes : t.numNodes ≤ 2 ^ 32) :
    (∀ (b : BVH F) (leftBounds : AABB F) (refList : List (BVHTriangleRef F)),
        b.refList.length + refList.length < 2 ^ 31 →
        (buildBVH uninit (.leaf leftBounds refList) b).2 =
          { nodeList := b.nodeList ++
              [{ uninit b.nodeList.length with
                  isLeafBegin := (b.refList.length : Int)
                  rightOffsetEnd := (b.refList.length : Int) + (refList.length : Int) }]
            refList := b.refList ++ refList }) ∧
      List.Forall₂
        (fun (fn : BVHNode F) (refs : List (BVHTriangleRef F)) =>
          fn.rightOffsetEnd = fn.isLeafBegin + (refs.length : Int) ∧
            (((buildBVH uninit t ⟨[], []⟩).2.refList.drop fn.isLeafBegin.toNat).take
              refs.length = refs))
        (leafNodes (buildBVH uninit t ⟨[], []⟩).2.nodeList) t.leafLists ∧
      rangesTile (leafNodes (buildBVH uninit t ⟨[], []⟩).2.nodeList) 0
        ((buildBVH uninit t ⟨[], []⟩).2.refList.length : Int) ∧
      ∀ (S : StdSort (BVHTriangleRef F)) (r : BVHTriangleRef F),
        (buildBVH uninit (buildBVHNode S [r]) ⟨[], []⟩).2.nodeList.map
          (fun n => (n.isLeafBegin, n.rightOffsetEnd)) = [(0, 1)] := by
  refine ⟨?_, ?_, ?_, ?_⟩
  · intro b lb refs hb
    simp only [buildBVH]
    rw [toInt32_of_lt (by omega), toInt32_of_lt hb]
    simp
  · rw [buildBVH_eq uninit t ⟨[], []⟩ (by simpa using hnodes)]
    have := (preorderLayout_leaf_ranges uninit t 0 0 [] [] rfl (by simpa using hrefs)).1
    simpa using this
  · rw [buildBVH_eq uninit t ⟨[], []⟩ (by simpa using hnodes)]
    have := (preorderLayout_leaf_ranges uninit t 0 0 [] [] rfl (by simpa using hrefs)).2
    simpa using this
  · intro S r
    rw [buildBVHNode_leaf S [r] (by simp)]
    simp [buildBVH, toInt32]

/-- Witness for C2: the two-leaf tree flattened into an empty BVH; its leaf ranges tile
`[0, 3)`. -/
theorem buildBVH_leaf_ranges_witness :
    rangesTile (leafNodes (buildBVH (fun _ => zeroNode) twoLeafTree ⟨[], []⟩).2.nodeList) 0
      ((buildBVH (fun _ => zeroNode) twoLeafTree ⟨[], []⟩).2.refList.length : Int) :=
  (buildBVH_leaf_ranges (fun _ => zeroNode) twoLeafTree (by decide) (by decide)).2.2.1

/-- The flattening of a tree whose left leaf holds `2 ^ 31` records and whose right leaf
holds one record: the node created for the right leaf. -/
theorem buildBVH_second_leaf_of_length (uninit : Nat → BVHNode F) (bx : AABB F)
    (big : List (BVHTriangleRef F)) (r : BVHTriangleRef F) (h : big.length = 2 ^ 31) :
    (buildBVH uninit (.node bx bx (.leaf bx big) (.leaf bx [r]) []) ⟨[], []⟩).2.nodeList[2]? =
      some { uninit 2 with isLeafBegin := -2147483648, rightOffsetEnd := -2147483647 } := by
  rw [buildBVH_eq _ _ _ (by simp [BVHBuildNode.numNodes])]
  simp [preorderLayout, BVHBuildNode.numNodes, BVHBuildNode.allRefs, h, toInt32]

/-- C2 (counterexample). Flattening into an empty BVH the tree whose left leaf holds
`2 ^ 31` records and whose right leaf holds one: when the right leaf is visited the record
array holds `2 ^ 31` records, yet its flat node, in slot 2, gets `isLeafBegin = -2 ^ 31`
and `rightOffsetEnd = -2 ^ 31 + 1`. -/
theorem buildBVH_leafBegin_wraps :
    (buildBVH (fun _ => zeroNode) (.leaf zeroBox (List.replicate (2 ^ 31) (cubeRef 0 1 0)))
        ⟨[zeroNode], []⟩).2.refList.length = 2 ^ 31 ∧
      (buildBVH (fun _ => zeroNode)
        (.node zeroBox zeroBox (.leaf zeroBox (List.replicate (2 ^ 31) (cubeRef 0 1 0)))
          (.leaf zeroBox [cubeRef 0 1 1]) []) ⟨[], []⟩).2.nodeList[2]? =
        some ⟨zeroBox, zeroBox, -2147483648, -2147483647⟩ := by
  refine ⟨?_, ?_⟩
  · rw [buildBVH_refList]
    simp only [BVHBuildNode.allRefs, List.nil_append, List.length_replicate]
  · exact buildBVH_second_leaf_of_length (fun _ => zeroNode) zeroBox _ _
      (List.length_replicate _ _)

/-- C4. For every build tree flattened by `buildBVH` with fewer than `2 ^ 31` triangle
records in the record array afterwards, the appended flat nodes correspond one to one, in
pre-order, to the build nodes, and each has `isLeafBegin >= 0` exactly when the build node
it was created from is a leaf, an internal node having `isLeafBegin = -1`. In particular a
leaf visited while the record array is empty gets the tag `0` and is treated as a leaf: its
range `[0, n)` is stored and its records are appended. -/
theorem buildBVH_tags (uninit : Nat → BVHNode F) (t : BVHBuildNode F) (b : BVH F)
    (h : b.refList.length + t.allRefs.length < 2 ^ 31) :
    List.Forall₂
        (fun (bn : BVHBuildNode F) (fn : BVHNode F) =>
          (0 ≤ fn.isLeafBegin ↔ bn.isLeaf = true) ∧ (bn.isLeaf = false → fn.isLeafBegin = -1))
        t.preorder ((buildBVH uninit t b).2.nodeList.drop b.nodeList.length) ∧
      ∀ (leftBounds : AABB F) (refList : List (BVHTriangleRef F)) (nodes : List (BVHNode F)),
        t = .leaf leftBounds refList → b = ⟨nodes, []⟩ →
          (buildBVH uninit t b).2.refList = refList ∧
          (buildBVH uninit t b).2.nodeList =
            nodes ++ [{ uninit nodes.length with
                        isLeafBegin := 0, rightOffsetEnd := (refList.length : Int) }] := by
  constructor
  · have h1 := buildBVH_nodeList_withoutOffset uninit t b
    have h2 := preorderLayout_tags uninit t b.nodeList.length b.refList.length h
    have h3 : ((buildBVH uninit t b).2.nodeList.drop b.nodeList.length).map
        BVHNode.withoutOffset =
        (preorderLayout uninit t b.nodeList.length b.refList.length).map
          BVHNode.withoutOffset := by
      rw [List.map_drop, h1, List.map_append, ← List.length_map b.nodeList
        BVHNode.withoutOffset, List.drop_left]
    have key : ∀ u : List (BVHNode F), _ ↔ _ := fun u => List.forall₂_map_right_iff
      (R := fun (bn : BVHBuildNode F) (fn : BVHNode F) =>
        (0 ≤ fn.isLeafBegin ↔ bn.isLeaf = true) ∧ (bn.isLeaf = false → fn.isLeafBegin = -1))
      (f := BVHNode.withoutOffset) (l := t.preorder) (u := u)
    have h4 := (key _).mpr h2
    rw [← h3] at h4
    exact (key _).mp h4
  · intro lb refs nodes ht hb
    subst ht hb
    simp only [BVHBuildNode.allRefs, List.length_nil, Nat.zero_add] at h
    simp only [buildBVH, List.nil_append, List.length_nil, Nat.zero_add]
    rw [toInt32_of_lt h, toInt32_of_lt (by omega)]
    simp

/-- Witness for C4: the two-leaf tree flattened into an empty BVH. -/
theorem buildBVH_tags_witness :
    List.Forall₂
      (fun (bn : BVHBuildNode ℚ) (fn : BVHNode ℚ) =>
        (0 ≤ fn.isLeafBegin ↔ bn.isLeaf = true) ∧ (bn.isLeaf = false → fn.isLeafBegin = -1))
      twoLeafTree.preorder
      ((buildBVH (fun _ => zeroNode) twoLeafTree ⟨[], []⟩).2.nodeList.drop 0) :=
  (buildBVH_tags (fun _ => zeroNode) twoLeafTree ⟨[], []⟩ (by decide)).1

/-- C3 (the code at the failing input). Starting from zeroed memory, the flat node appended
for a leaf whose box is `cubeBox 1 3` has the zero box, not the leaf's box; and in the
flattened two-leaf tree the root stores `cubeBox 0 2` and `cubeBox 1 3` for its children
while the children's own flat nodes, in slots 1 and 2, carry the zero box. -/
theorem buildBVH_leaf_box_not_stored :
    ((buildBVH (fun _ => zeroNode) (.leaf (cubeBox 1 3) [cubeRef 1 3 0]) ⟨[], []⟩).2.nodeList.map
        (fun n => n.leftBounds) = [zeroBox]) ∧
      zeroBox ≠ cubeBox 1 3 ∧
      (buildBVH (fun _ => zeroNode) twoLeafTree ⟨[], []⟩).2.nodeList =
        [⟨cubeBox 0 2, cubeBox 1 3, -1, 2⟩, ⟨zeroBox, zeroBox, 0, 2⟩, ⟨zeroBox, zeroBox, 2, 3⟩] := by
  refine ⟨by decide, by decide, by decide⟩

end FlattenClaims

/-! ## The recursive builder `buildBVHNode` -/

section BuilderClaims

variable {F : Type} [FloatOps F]

/-- C5. For every record list `L` with `n = |L| > 10`, `buildBVHNode` sorts `L` into a
permutation `sorted` of `L` that is ascending in the centroid coordinate
`(bounds.max + bounds.min) / 2` along the chosen axis and, with `m = n / 2`, builds the left
child from `sorted[0..m]` (`m + 1` records) and the right child from `sorted[m..n-1]`
(`n - m` records); `sorted[m]` is the last record of the left list and the first of the
right list. For `n = 11` each child receives 6 records and both children are leaves. -/
theorem buildBVHNode_split (S : StdSort (BVHTriangleRef F)) (L : List (BVHTriangleRef F))
    (h : 10 < L.length) :
    ∃ sorted : List (BVHTriangleRef F),
      sorted.Perm L ∧
      sorted.Pairwise (fun a b =>
        ((a.bounds.max.add a.bounds.min).half).get (sortAxisOf (refListBounds L)) ≤
          ((b.bounds.max.add b.bounds.min).half).get (sortAxisOf (refListBounds L))) ∧
      buildBVHNode S L =
        .node (refListBounds (sorted.take (L.length / 2 + 1)))
          (refListBounds (sorted.drop (L.length / 2)))
          (buildBVHNode S (sorted.take (L.length / 2 + 1)))
          (buildBVHNode S (sorted.drop (L.length / 2))) [] ∧
      (sorted.take (L.length / 2 + 1)).length = L.length / 2 + 1 ∧
      (sorted.drop (L.length / 2)).length = L.length - L.length / 2 ∧
      (∃ x, sorted[L.length / 2]? = some x ∧
        (sorted.take (L.length / 2 + 1))[L.length / 2]? = some x ∧
        (sorted.drop (L.length / 2))[0]? = some x) ∧
      (L.length = 11 →
        (sorted.take (L.length / 2 + 1)).length = 6 ∧ (sorted.drop (L.length / 2)).length = 6 ∧
        (buildBVHNode S (sorted.take (L.length / 2 + 1))).isLeaf = true ∧
        (buildBVHNode S (sorted.drop (L.length / 2))).isLeaf = true) := by
  have hswo := centroidLess_strictWeakOrdering (F := F) (sortAxisOf (refListBounds L))
  have hlen := sortBVHRefList_length S L (sortAxisOf (refListBounds L))
  have htake : ((sortBVHRefList S L (sortAxisOf (refListBounds L))).take
      (L.length / 2 + 1)).length = L.length / 2 + 1 := by
    rw [List.length_take, hlen]; omega
  have hdrop : ((sortBVHRefList S L (sortAxisOf (refListBounds L))).drop
      (L.length / 2)).length = L.length - L.length / 2 := by
    rw [List.length_drop, hlen]
  have hm : L.length / 2 < (sortBVHRefList S L (sortAxisOf (refListBounds L))).length := by
    rw [hlen]; omega
  refine ⟨sortBVHRefList S L (sortAxisOf (refListBounds L)), S.perm _ L hswo, ?_, ?_, htake,
    hdrop, ?_, ?_⟩
  · refine (S.sorted _ L hswo).imp ?_
    intro a b hab
    simpa [centroidLess] using hab
  · have := buildBVHNode_node S L h
    rw [hlen] at this
    exact this
  · refine ⟨(sortBVHRefList S L (sortAxisOf (refListBounds L)))[L.length / 2],
      List.getElem?_eq_getElem hm, ?_, ?_⟩
    · rw [List.getElem?_take_of_lt (by omega), List.getElem?_eq_getElem hm]
    · rw [List.getElem?_drop, Nat.add_zero, List.getElem?_eq_getElem hm]
  · intro h11
    have ht : ((sortBVHRefList S L (sortAxisOf (refListBounds L))).take
        (L.length / 2 + 1)).length = 6 := by rw [htake, h11]
    have hd : ((sortBVHRefList S L (sortAxisOf (refListBounds L))).drop
        (L.length / 2)).length = 6 := by rw [hdrop, h11]
    refine ⟨ht, hd, ?_, ?_⟩
    · rw [buildBVHNode_leaf S _ (by rw [ht]; decide)]
      rfl
    · rw [buildBVHNode_leaf S _ (by rw [hd]; decide)]
      rfl

/-- Witness for C5: the eleven records, sorted by insertion sort. -/
theorem buildBVHNode_split_witness :
    ∃ sorted : List (BVHTriangleRef ℚ),
      sorted.Perm elevenRefs ∧
      buildBVHNode (insertionStdSort _) elevenRefs =
        .node (refListBounds (sorted.take 6)) (refListBounds (sorted.drop 5))
          (buildBVHNode (insertionStdSort _) (sorted.take 6))
          (buildBVHNode (insertionStdSort _) (sorted.drop 5)) [] :=
  match buildBVHNode_split (insertionStdSort _) elevenRefs (by decide) with
  | ⟨sorted, hperm, _, hnode, _⟩ => ⟨sorted, hperm, hnode⟩

/-- The tree built from the eleven records with insertion sort as `std::sort`: the x axis
is chosen, the records are put in ascending order, the left leaf takes records 0 to 5 and
the right leaf records 5 to 10, record 5 being in both. -/
theorem buildBVHNode_elevenRefs :
    buildBVHNode (insertionStdSort _) elevenRefs =
      .node (cubeBox 0 6) (cubeBox 5 11)
        (.leaf (cubeBox 0 6)
          [cubeRef 0 1 0, cubeRef 1 2 1, cubeRef 2 3 2, cubeRef 3 4 3, cubeRef 4 5 4,
            cubeRef 5 6 5])
        (.leaf (cubeBox 5 11)
          [cubeRef 5 6 5, cubeRef 6 7 6, cubeRef 7 8 7, cubeRef 8 9 8, cubeRef 9 10 9,
            cubeRef 10 11 10]) [] := by
  decide!

/-- C6. For every record list `L`, `buildBVHNode L` is a leaf if and only if `|L| <= 10`;
that leaf holds exactly the records of `L` in their input order and its box `leftBounds` is
`refListBounds L`; for `|L| > 10` the result is an internal node with two children and an
empty record list of its own. -/
theorem buildBVHNode_leaf_iff (S : StdSort (BVHTriangleRef F)) (L : List (BVHTriangleRef F)) :
    ((buildBVHNode S L).isLeaf = true ↔ L.length ≤ 10) ∧
      (L.length ≤ 10 → buildBVHNode S L = .leaf (refListBounds L) L) ∧
      (10 < L.length →
        ∃ leftBounds rightBounds left right,
          buildBVHNode S L = .node leftBounds rightBounds left right []) := by
  by_cases h : L.length ≤ 10
  · refine ⟨?_, fun _ => buildBVHNode_leaf S L h, fun h' => absurd h (Nat.not_le.mpr h')⟩
    rw [buildBVHNode_leaf S L h]
    simp [BVHBuildNode.isLeaf, h]
  · have h' : 10 < L.length := Nat.not_le.mp h
    refine ⟨?_, fun h'' => absurd h'' h, fun _ => ⟨_, _, _, _, buildBVHNode_node S L h'⟩⟩
    rw [buildBVHNode_node S L h']
    simp [BVHBuildNode.isLeaf, h]

/-- C10. For every list `L`, the box of the node `buildBVHNode L` (a leaf's box is its
`leftBounds`, an internal node's box is the union of its `leftBounds` and `rightBounds`)
is `refListBounds L`, and every internal node of the tree stores as `leftBounds` and
`rightBounds` the boxes of its left and right children; in particular, for `|L| > 10`, the
root is an internal node whose `leftBounds` and `rightBounds` have union `refListBounds L`
and are the boxes of its children. -/
theorem buildBVHNode_boxes (S : StdSort (BVHTriangleRef F)) (L : List (BVHTriangleRef F)) :
    (buildBVHNode S L).box = refListBounds L ∧
      (buildBVHNode S L).childBoxesStored ∧
      (10 < L.length →
        ∃ leftBounds rightBounds left right,
          buildBVHNode S L = .node leftBounds rightBounds left right [] ∧
          leftBounds.union rightBounds = refListBounds L ∧
          leftBounds = left.box ∧ rightBounds = right.box) := by
  have haux := buildBVHNode_box_aux S L.length L rfl
  refine ⟨haux.1, haux.2, ?_⟩
  intro h
  have hnode := buildBVHNode_node S L h
  rw [hnode] at haux
  exact ⟨_, _, _, _, hnode, haux.1, haux.2.1, haux.2.2.1⟩

/-- C9 (amended). For every list `L` of triangle records and every axis, the box
`refListBounds L` (stored as the leaf's box when `|L| <= 10`) contains the records' boxes:
its `max` is at least every record's `bounds.max` and its `min` at most every record's
`bounds.min`. It is the exact union as far as the sentinels allow: if some record has
`bounds.max >= -100000000000000` (the sentinel, as a float) on the axis, then the `max` of
the box is the maximum of the records' `bounds.max`, attained by a record; if some record
has `bounds.min <= 100000000000000`, then the `min` of the box is the minimum of the
records' `bounds.min`. Otherwise the component is the sentinel the fold starts from: with
no record of `bounds.max >= -100000000000000` the `max` of the box is `-100000000000000`,
and with no record of `bounds.min <= 100000000000000` its `min` is `100000000000000`. -/
theorem refListBounds_exact_within_sentinels (L : List (BVHTriangleRef F)) (axis : BVHAxis) :
    (∀ r ∈ L, r.bounds.max.get axis ≤ (refListBounds L).max.get axis) ∧
      (∀ r ∈ L, (refListBounds L).min.get axis ≤ r.bounds.min.get axis) ∧
      ((∃ r ∈ L, FloatOps.negBig ≤ r.bounds.max.get axis) →
        ∃ r ∈ L, (refListBounds L).max.get axis = r.bounds.max.get axis) ∧
      ((∃ r ∈ L, r.bounds.min.get axis ≤ FloatOps.big) →
        ∃ r ∈ L, (refListBounds L).min.get axis = r.bounds.min.get axis) ∧
      ((¬ ∃ r ∈ L, FloatOps.negBig ≤ r.bounds.max.get axis) →
        (refListBounds L).max.get axis = FloatOps.negBig) ∧
      ((¬ ∃ r ∈ L, r.bounds.min.get axis ≤ FloatOps.big) →
        (refListBounds L).min.get axis = FloatOps.big) ∧
      ∀ S : StdSort (BVHTriangleRef F), L.length ≤ 10 →
        buildBVHNode S L = .leaf (refListBounds L) L := by
  have hmax := boundsFrom_max axis L (sentinelBox (F := F))
  have hmin := boundsFrom_min axis L (sentinelBox (F := F))
  rw [sentinelBox_max_get] at hmax
  rw [sentinelBox_min_get] at hmin
  rw [← refListBounds_eq_boundsFrom] at hmax hmin
  refine ⟨hmax.2.1, hmin.2.1, ?_, ?_, ?_, ?_, fun S h => buildBVHNode_leaf S L h⟩
  · rintro ⟨r, hr, hge⟩
    rcases hmax.2.2 with h1 | h1
    · exact ⟨r, hr, le_antisymm (by rw [h1]; exact hge) (hmax.2.1 r hr)⟩
    · exact h1
  · rintro ⟨r, hr, hle⟩
    rcases hmin.2.2 with h1 | h1
    · exact ⟨r, hr, le_antisymm (hmin.2.1 r hr) (by rw [h1]; exact hle)⟩
    · exact h1
  · intro hnone
    rcases hmax.2.2 with h1 | ⟨r, hr, h1⟩
    · exact h1
    · exact absurd ⟨r, hr, by rw [← h1]; exact hmax.1⟩ hnone
  · intro hnone
    rcases hmin.2.2 with h1 | ⟨r, hr, h1⟩
    · exact h1
    · exact absurd ⟨r, hr, by rw [← h1]; exact hmin.1⟩ hnone

/-- C9 (counterexample). In binary32, a single record whose box lies beyond the sentinel:
its `bounds.max` is `-2 ^ 47` on every axis, yet the box computed for the one-record list
has `max = -100000000376832` (the float value of the sentinel `-100000000000000`), so the
computed box is not the record's box, the exact union of the one box. -/
theorem refListBounds_clamped_by_sentinel :
    (refListBounds [farRef32]).max =
        vec32 (-100000000376832) (-100000000376832) (-100000000376832) ∧
      farRef32.bounds.max = vec32 (-140737488355328) (-140737488355328) (-140737488355328) ∧
      refListBounds [farRef32] ≠ farRef32.bounds := by
  refine ⟨by decide!, by decide!, by decide!⟩

end BuilderClaims

/-! ## The triangle-record builder `buildTriangleRefList` -/

section RefListFacts

variable {F : Type} [FloatOps F]

theorem BVHTriangleRef.ctor_of_valid (tri : TriangleRef) (vertex_data : List (Vertex F))
    (index : Nat) (h0 : tri.v0 < vertex_data.length) (h1 : tri.v1 < vertex_data.length)
    (h2 : tri.v2 < vertex_data.length) :
    ∃ p0 p1 p2 r,
      vertex_data[tri.v0]? = some p0 ∧ vertex_data[tri.v1]? = some p1 ∧
        vertex_data[tri.v2]? = some p2 ∧ BVHTriangleRef.ctor tri vertex_data index = some r ∧
        r.index = index ∧ r.v0 = p0.pos ∧ r.e1 = p1.pos.sub p0.pos ∧
        r.e2 = p2.pos.sub p0.pos := by
  have hc : BVHTriangleRef.ctor tri vertex_data index =
      some
        { v0 := vertex_data[tri.v0].pos
          e1 := vertex_data[tri.v1].pos.sub vertex_data[tri.v0].pos
          e2 := vertex_data[tri.v2].pos.sub vertex_data[tri.v0].pos
          bounds :=
            { max := (glmMax vertex_data[tri.v0].pos
                (glmMax vertex_data[tri.v1].pos vertex_data[tri.v2].pos)).add
                  (vec3.splat FloatOps.EPSILON)
              min := (glmMin vertex_data[tri.v0].pos
                (glmMin vertex_data[tri.v1].pos vertex_data[tri.v2].pos)).sub
                  (vec3.splat FloatOps.EPSILON) }
          index := index } := by
    simp only [BVHTriangleRef.ctor, List.getElem?_eq_getElem h0, List.getElem?_eq_getElem h1,
      List.getElem?_eq_getElem h2]
  exact ⟨vertex_data[tri.v0], vertex_data[tri.v1], vertex_data[tri.v2], _,
    List.getElem?_eq_getElem h0, List.getElem?_eq_getElem h1, List.getElem?_eq_getElem h2, hc,
    rfl, rfl, rfl, rfl⟩

/-- The loop of `buildTriangleRefList` exits with the promised records once it has enough
fuel, provided the triangle count fits an `unsigned` and every index is valid. -/
theorem buildTriangleRefListLoop_spec (refs : List TriangleRef) (vertex_data : List (Vertex F))
    (hsize : refs.length < 2 ^ 32)
    (hvalid : ∀ tri ∈ refs, tri.v0 < vertex_data.length ∧ tri.v1 < vertex_data.length ∧
      tri.v2 < vertex_data.length) :
    ∀ (fuel i : Nat) (acc : List (BVHTriangleRef F)), i ≤ refs.length → refs.length - i < fuel →
      RecordsMatch refs vertex_data acc i →
      ∃ recs, buildTriangleRefListLoop refs vertex_data fuel i acc = .returned recs ∧
        RecordsMatch refs vertex_data recs refs.length := by
  intro fuel
  induction fuel with
  | zero => intro i acc _ hf; omega
  | succ fuel ih =>
    intro i acc hi hf hacc
    by_cases hlt : i < refs.length
    · have htri : refs[i]? = some refs[i] := List.getElem?_eq_getElem hlt
      have hv := hvalid refs[i] (List.getElem_mem hlt)
      obtain ⟨p0, p1, p2, r, e0, e1, e2, hctor, hidx, hv0, he1, he2⟩ :=
        BVHTriangleRef.ctor_of_valid refs[i] vertex_data i hv.1 hv.2.1 hv.2.2
      simp only [buildTriangleRefListLoop, if_pos hlt, htri, hctor]
      rw [toUInt32_of_lt (by omega)]
      refine ih (i + 1) (acc ++ [r]) (by omega) (by omega) ⟨by simp [hacc.1], ?_⟩
      intro j hj
      by_cases hji : j < i
      · obtain ⟨tri, q0, q1, q2, r', a1, a2, a3, a4, a5, a6⟩ := hacc.2 j hji
        refine ⟨tri, q0, q1, q2, r', a1, a2, a3, a4, ?_, a6⟩
        rw [List.getElem?_append_left (by rw [hacc.1]; exact hji)]
        exact a5
      · have hje : j = i := by omega
        subst hje
        refine ⟨refs[j], p0, p1, p2, r, htri, e0, e1, e2, ?_, hidx, hv0, he1, he2⟩
        rw [List.getElem?_append_right (by rw [hacc.1]), hacc.1]
        simp
    · have hie : i = refs.length := by omega
      subst hie
      exact ⟨acc, by simp [buildTriangleRefListLoop], hacc⟩

/-- More fuel does not change a value returned by the loop of `buildTriangleRefList`. -/
theorem buildTriangleRefListLoop_mono (refs : List TriangleRef) (vertex_data : List (Vertex F)) :
    ∀ (fuel i : Nat) (acc recs : List (BVHTriangleRef F)),
      buildTriangleRefListLoop refs vertex_data fuel i acc = .returned recs →
      ∀ k, buildTriangleRefListLoop refs vertex_data (fuel + k) i acc = .returned recs := by
  intro fuel
  induction fuel with
  | zero => intro i acc recs h; simp [buildTriangleRefListLoop] at h
  | succ fuel ih =>
    intro i acc recs h k
    rw [Nat.add_right_comm]
    simp only [buildTriangleRefListLoop] at h ⊢
    by_cases hlt : i < refs.length
    · rw [if_pos hlt] at h ⊢
      cases htri : refs[i]? with
      | none => rw [htri] at h; exact absurd h (by simp)
      | some tri =>
        rw [htri] at h
        simp only at h ⊢
        cases hr : BVHTriangleRef.ctor tri vertex_data i with
        | none => rw [hr] at h; exact absurd h (by simp)
        | some r =>
          rw [hr] at h
          exact ih _ _ _ h k
    · rw [if_neg hlt] at h ⊢
      exact h

/-- With `2 ^ 32` triangles or more, all with valid indices, the loop of
`buildTriangleRefList` neither exits nor faults: the `unsigned` counter stays below the
size, so the loop is still running whatever the fuel. -/
theorem buildTriangleRefListLoop_running (refs : List TriangleRef)
    (vertex_data : List (Vertex F)) (hsize : 2 ^ 32 ≤ refs.length)
    (hvalid : ∀ tri ∈ refs, tri.v0 < vertex_data.length ∧ tri.v1 < vertex_data.length ∧
      tri.v2 < vertex_data.length) :
    ∀ (fuel i : Nat) (acc : List (BVHTriangleRef F)), i < 2 ^ 32 →
      buildTriangleRefListLoop refs vertex_data fuel i acc = .outOfFuel := by
  intro fuel
  induction fuel with
  | zero => intro i acc _; rfl
  | succ fuel ih =>
    intro i acc hi
    have hlt : i < refs.length := by omega
    have htri : refs[i]? = some refs[i] := List.getElem?_eq_getElem hlt
    have hv := hvalid refs[i] (List.getElem_mem hlt)
    obtain ⟨p0, p1, p2, r, _, _, _, hctor, _⟩ :=
      BVHTriangleRef.ctor_of_valid refs[i] vertex_data i hv.1 hv.2.1 hv.2.2
    simp only [buildTriangleRefListLoop, if_pos hlt, htri, hctor]
    exact ih _ _ (by unfold toUInt32; omega)

end RefListFacts

section RefListClaims

variable {F : Type} [FloatOps F]

/-- C7 (amended). For every vertex buffer `V` and every triangle list `T` of fewer than
`2 ^ 32` triangles whose indices are all valid offsets into `V`, `buildTriangleRefList`
returns (for every fuel above `|T|`) a list of exactly `|T|` records in which, for each
`i < |T|`, record `i` has `index = i`, `v0 = V[T[i].v0].pos`,
`e1 = V[T[i].v1].pos - V[T[i].v0].pos` and `e2 = V[T[i].v2].pos - V[T[i].v0].pos`. -/
theorem buildTriangleRefList_records (T : List TriangleRef) (V : List (Vertex F))
    (hsize : T.length < 2 ^ 32)
    (hvalid : ∀ tri ∈ T, tri.v0 < V.length ∧ tri.v1 < V.length ∧ tri.v2 < V.length) :
    ∃ recs : List (BVHTriangleRef F),
      (∀ fuel, T.length < fuel → buildTriangleRefList fuel T V = .returned recs) ∧
      recs.length = T.length ∧
      ∀ i, i < T.length →
        ∃ tri p0 p1 p2 r,
          T[i]? = some tri ∧ V[tri.v0]? = some p0 ∧ V[tri.v1]? = some p1 ∧
            V[tri.v2]? = some p2 ∧ recs[i]? = some r ∧ r.index = i ∧ r.v0 = p0.pos ∧
            r.e1 = p1.pos.sub p0.pos ∧ r.e2 = p2.pos.sub p0.pos := by
  obtain ⟨recs, hrun, hlen, hrecs⟩ :=
    buildTriangleRefListLoop_spec T V hsize hvalid (T.length + 1) 0 [] (Nat.zero_le _)
      (by omega) ⟨rfl, fun j hj => absurd hj (Nat.not_lt_zero j)⟩
  refine ⟨recs, ?_, hlen, hrecs⟩
  intro fuel hfuel
  have := buildTriangleRefListLoop_mono T V (T.length + 1) 0 [] recs hrun (fuel - (T.length + 1))
  rw [show T.length + 1 + (fuel - (T.length + 1)) = fuel by omega] at this
  exact this

/-- Witness for C7: two triangles over four vertices. -/
theorem buildTriangleRefList_records_witness :
    ∃ recs : List (BVHTriangleRef ℚ),
      (∀ fuel, 2 < fuel →
        buildTriangleRefList fuel sampleTriangles sampleVertices = .returned recs) ∧
      recs.length = 2 :=
  match buildTriangleRefList_records sampleTriangles sampleVertices (by decide) (by decide) with
  | ⟨recs, hrun, hlen, _⟩ => ⟨recs, hrun, hlen⟩

/-- The records built for the two sample triangles. -/
theorem buildTriangleRefList_sample :
    buildTriangleRefList 3 sampleTriangles sampleVertices =
      .returned
        [⟨⟨0, 0, 0⟩, ⟨1, 0, 0⟩, ⟨0, 1, 0⟩,
            ⟨⟨-eps32, -eps32, -eps32⟩, ⟨1 + eps32, 1 + eps32, eps32⟩⟩, 0⟩,
          ⟨⟨1, 0, 0⟩, ⟨-1, 1, 0⟩, ⟨-1, 0, 1⟩,
            ⟨⟨-eps32, -eps32, -eps32⟩, ⟨1 + eps32, 1 + eps32, 1 + eps32⟩⟩, 1⟩] := by
  decide!

/-- C7 (counterexample). For a list of `2 ^ 32` triangles, all with valid indices, the
`unsigned` loop counter wraps to `0` before reaching the size: whatever the fuel, the loop
of `buildTriangleRefList` is still running, so no record list is ever returned. -/
theorem buildTriangleRefList_counter_wraps :
    (∀ tri ∈ List.replicate (2 ^ 32) (⟨0, 0, 0⟩ : TriangleRef),
        tri.v0 < [vertexAt 0 0 0].length ∧ tri.v1 < [vertexAt 0 0 0].length ∧
          tri.v2 < [vertexAt 0 0 0].length) ∧
      ¬ ∃ fuel,
        buildTriangleRefList fuel (List.replicate (2 ^ 32) ⟨0, 0, 0⟩) [vertexAt 0 0 0] ≠
          .outOfFuel := by
  have hvalid : ∀ tri ∈ List.replicate (2 ^ 32) (⟨0, 0, 0⟩ : TriangleRef),
      tri.v0 < [vertexAt 0 0 0].length ∧ tri.v1 < [vertexAt 0 0 0].length ∧
        tri.v2 < [vertexAt 0 0 0].length := by
    intro tri htri
    rw [List.eq_of_mem_replicate htri]
    exact ⟨Nat.zero_lt_one, Nat.zero_lt_one, Nat.zero_lt_one⟩
  refine ⟨hvalid, ?_⟩
  rintro ⟨fuel, h⟩
  exact h (buildTriangleRefListLoop_running (List.replicate (2 ^ 32) ⟨0, 0, 0⟩)
    [vertexAt 0 0 0] (by rw [List.length_replicate]) hvalid fuel 0 [] (by decide))

end RefListClaims

/-! ## Sizes, termination and depth -/

section SizeFacts

variable {F : Type} [FloatOps F]

theorem BVHBuildNode.numNodes_eq (t : BVHBuildNode F) : t.numNodes + 1 = 2 * t.numLeaves := by
  induction t with
  | leaf lb refs => rfl
  | node lb rb l r refs ihl ihr =>
    simp only [BVHBuildNode.numNodes, BVHBuildNode.numLeaves]
    omega

theorem BVHBuildNode.numInternal_eq (t : BVHBuildNode F) : t.numInternal + 1 = t.numLeaves := by
  induction t with
  | leaf lb refs => rfl
  | node lb rb l r refs ihl ihr =>
    simp only [BVHBuildNode.numInternal, BVHBuildNode.numLeaves]
    omega

/-- Each call of `buildBVH` appends one node per node of the build tree, whatever the sizes
involved. -/
theorem buildBVH_nodeList_length (uninit : Nat → BVHNode F) (t : BVHBuildNode F) (b : BVH F) :
    (buildBVH uninit t b).2.nodeList.length = b.nodeList.length + t.numNodes := by
  have h := congrArg List.length (buildBVH_nodeList_withoutOffset uninit t b)
  simpa [preorderLayout_length] using h

/-- The leaves of the tree built from `n` records hold `n` records plus one duplicate per
internal node. -/
theorem buildBVHNode_allRefs_length (S : StdSort (BVHTriangleRef F)) :
    ∀ (n : Nat) (refList : List (BVHTriangleRef F)), refList.length = n →
      (buildBVHNode S refList).allRefs.length + 1 =
        refList.length + (buildBVHNode S refList).numLeaves := by
  intro n
  induction n using Nat.strong_induction_on with
  | _ n ih =>
    intro refList hn
    by_cases h : refList.length ≤ 10
    · rw [buildBVHNode_leaf S refList h]
      rfl
    · have h' : 10 < refList.length := Nat.not_le.mp h
      have hlen := sortBVHRefList_length S refList (sortAxisOf (refListBounds refList))
      rw [buildBVHNode_node S refList h']
      generalize sortBVHRefList S refList (sortAxisOf (refListBounds refList)) = sorted at hlen ⊢
      have ht : (sorted.take (sorted.length / 2 + 1)).length = refList.length / 2 + 1 := by
        rw [List.length_take, hlen]; omega
      have hd : (sorted.drop (sorted.length / 2)).length = refList.length - refList.length / 2 := by
        rw [List.length_drop, hlen]
      have hL := ih _ (by rw [ht]; omega) (sorted.take (sorted.length / 2 + 1)) rfl
      have hR := ih _ (by rw [hd]; omega) (sorted.drop (sorted.length / 2)) rfl
      rw [ht] at hL
      rw [hd] at hR
      simp only [BVHBuildNode.allRefs, BVHBuildNode.numLeaves, List.length_append]
      omega

/-- With more fuel than records, the depth-bounded builder returns the tree of
`buildBVHNode`. -/
theorem buildBVHNodeFuel_eq (S : StdSort (BVHTriangleRef F)) :
    ∀ (fuel : Nat) (refList : List (BVHTriangleRef F)), refList.length < fuel →
      buildBVHNodeFuel S fuel refList = some (buildBVHNode S refList) := by
  intro fuel
  induction fuel with
  | zero => intro refList h; omega
  | succ fuel ih =>
    intro refList hfuel
    by_cases h : refList.length ≤ 10
    · rw [buildBVHNode_leaf S refList h]
      simp [buildBVHNodeFuel, h]
    · have h' : 10 < refList.length := Nat.not_le.mp h
      have hlen := sortBVHRefList_length S refList (sortAxisOf (refListBounds refList))
      have hL := ih ((sortBVHRefList S refList (sortAxisOf (refListBounds refList))).take
          ((sortBVHRefList S refList (sortAxisOf (refListBounds refList))).length / 2 + 1))
        (by rw [List.length_take, hlen]; omega)
      have hR := ih ((sortBVHRefList S refList (sortAxisOf (refListBounds refList))).drop
          ((sortBVHRefList S refList (sortAxisOf (refListBounds refList))).length / 2))
        (by rw [List.length_drop, hlen]; omega)
      rw [buildBVHNode_node S refList h']
      simp only [buildBVHNodeFuel, if_neg h, hL, hR]

end SizeFacts

section SizeClaims

variable {F : Type} [FloatOps F]

/-- C11. For every list `L` of `N` triangle records, with `k` the number of leaves of the
tree `buildBVHNode L`, flattening the tree with `buildBVH` into an empty BVH yields a node
array of length exactly `2k - 1` and a triangle-record array of length exactly
`N + (k - 1)`, where `k - 1` is the number of internal nodes. -/
theorem flatten_sizes (S : StdSort (BVHTriangleRef F)) (uninit : Nat → BVHNode F)
    (L : List (BVHTriangleRef F)) :
    1 ≤ (buildBVHNode S L).numLeaves ∧
      (buildBVH uninit (buildBVHNode S L) ⟨[], []⟩).2.nodeList.length =
        2 * (buildBVHNode S L).numLeaves - 1 ∧
      (buildBVH uninit (buildBVHNode S L) ⟨[], []⟩).2.refList.length =
        L.length + ((buildBVHNode S L).numLeaves - 1) ∧
      (buildBVHNode S L).numLeaves - 1 = (buildBVHNode S L).numInternal := by
  have h1 := (buildBVHNode S L).numNodes_eq
  have h2 := (buildBVHNode S L).numInternal_eq
  have h3 := buildBVHNode_allRefs_length S L.length L rfl
  have h4 := buildBVH_nodeList_length uninit (buildBVHNode S L) ⟨[], []⟩
  have h5 := buildBVH_refList uninit (buildBVHNode S L) ⟨[], []⟩
  rw [h4, h5]
  simp only [List.length_nil, List.nil_append, Nat.zero_add]
  omega

/-- The eleven records built and flattened: two leaves, three nodes, twelve records. -/
theorem flatten_sizes_elevenRefs :
    (buildBVHNode (insertionStdSort _) elevenRefs).numLeaves = 2 ∧
      (buildBVH (fun _ => zeroNode) (buildBVHNode (insertionStdSort _) elevenRefs)
        ⟨[], []⟩).2.nodeList.length = 3 ∧
      (buildBVH (fun _ => zeroNode) (buildBVHNode (insertionStdSort _) elevenRefs)
        ⟨[], []⟩).2.refList.length = 12 := by
  decide!

/-- C12. `buildBVHNode` terminates on every record list: a recursion depth of `|L| + 1`
always suffices to obtain its result, and for every `n = |L| > 10` with `m = n / 2` the two
lists it recurses on, `sorted[0..m]` and `sorted[m..n-1]`, have `m + 1 < n` and `n - m < n`
records, whatever the records' values and whatever order the sort produced. -/
theorem buildBVHNode_terminates (S : StdSort (BVHTriangleRef F)) (L : List (BVHTriangleRef F)) :
    (∀ fuel, L.length < fuel → buildBVHNodeFuel S fuel L = some (buildBVHNode S L)) ∧
      (10 < L.length →
        ((sortBVHRefList S L (sortAxisOf (refListBounds L))).take (L.length / 2 + 1)).length =
            L.length / 2 + 1 ∧
          L.length / 2 + 1 < L.length ∧
          ((sortBVHRefList S L (sortAxisOf (refListBounds L))).drop (L.length / 2)).length =
            L.length - L.length / 2 ∧
          L.length - L.length / 2 < L.length ∧
          buildBVHNode S L =
            .node
              (refListBounds
                ((sortBVHRefList S L (sortAxisOf (refListBounds L))).take (L.length / 2 + 1)))
              (refListBounds
                ((sortBVHRefList S L (sortAxisOf (refListBounds L))).drop (L.length / 2)))
              (buildBVHNode S
                ((sortBVHRefList S L (sortAxisOf (refListBounds L))).take (L.length / 2 + 1)))
              (buildBVHNode S
                ((sortBVHRefList S L (sortAxisOf (refListBounds L))).drop (L.length / 2)))
              []) := by
  refine ⟨fun fuel h => buildBVHNodeFuel_eq S fuel L h, ?_⟩
  intro h
  have hlen := sortBVHRefList_length S L (sortAxisOf (refListBounds L))
  have hnode := buildBVHNode_node S L h
  rw [hlen] at hnode
  refine ⟨?_, by omega, ?_, by omega, hnode⟩
  · rw [List.length_take, hlen]; omega
  · rw [List.length_drop, hlen]

/-- Eleven identical records, whose centroids coincide on every axis: the builder stops
after one split, with two leaves of six records. -/
theorem buildBVHNode_elevenSameRefs :
    buildBVHNode (insertionStdSort _) elevenSameRefs =
        .node (cubeBox 0 1) (cubeBox 0 1)
          (.leaf (cubeBox 0 1) (List.replicate 6 (cubeRef 0 1 0)))
          (.leaf (cubeBox 0 1) (List.replicate 6 (cubeRef 0 1 0))) [] ∧
      buildBVHNodeFuel (insertionStdSort _) 2 elevenSameRefs =
        some (buildBVHNode (insertionStdSort _) elevenSameRefs) := by
  decide!

/-- C16. For every record list of length `n` and every natural number `d` with
`n <= 2 + 8 * 2 ^ d`, the height of the tree `buildBVHNode` builds (a leaf has height 0) is
at most `d`, whatever the records' values. -/
theorem buildBVHNode_height (S : StdSort (BVHTriangleRef F)) (L : List (BVHTriangleRef F))
    (d : Nat) (h : L.length ≤ 2 + 8 * 2 ^ d) : (buildBVHNode S L).height ≤ d := by
  induction d generalizing L with
  | zero =>
    rw [buildBVHNode_leaf S L (by simpa using h)]
    exact Nat.le_refl 0
  | succ d ih =>
    by_cases h10 : L.length ≤ 10
    · rw [buildBVHNode_leaf S L h10]
      exact Nat.zero_le _
    · have h' : 10 < L.length := Nat.not_le.mp h10
      have hlen := sortBVHRefList_length S L (sortAxisOf (refListBounds L))
      have hpow : 2 ^ (d + 1) = 2 * 2 ^ d := by rw [Nat.pow_succ, Nat.mul_comm]
      have hL := ih ((sortBVHRefList S L (sortAxisOf (refListBounds L))).take
          ((sortBVHRefList S L (sortAxisOf (refListBounds L))).length / 2 + 1))
        (by rw [List.length_take, hlen]; omega)
      have hR := ih ((sortBVHRefList S L (sortAxisOf (refListBounds L))).drop
          ((sortBVHRefList S L (sortAxisOf (refListBounds L))).length / 2))
        (by rw [List.length_drop, hlen]; omega)
      rw [buildBVHNode_node S L h']
      simp only [BVHBuildNode.height]
      have := Nat.max_le.mpr ⟨hL, hR⟩
      rw [Nat.add_comm]
      exact Nat.succ_le_succ this

/-- Witness for C16: eleven records and `d = 1`. -/
theorem buildBVHNode_height_witness :
    (buildBVHNode (insertionStdSort _) elevenRefs).height ≤ 1 :=
  buildBVHNode_height (insertionStdSort _) elevenRefs 1 (by decide)

end SizeClaims

/-! ## The choice of the sort axis -/

section AxisClaims

variable {F : Type} [FloatOps F]

/-- The axis `sortAxisOf` returns has an extent at least equal to each of the three. -/
theorem sortAxisOf_extent_max (bounds : AABB F) (axis : BVHAxis) :
    extent bounds axis ≤ extent bounds (sortAxisOf bounds) := by
  unfold sortAxisOf
  by_cases h1 : FloatOps.sub bounds.max.x bounds.min.x < FloatOps.sub bounds.max.y bounds.min.y
  · by_cases h2 : FloatOps.sub bounds.max.y bounds.min.y < FloatOps.sub bounds.max.z bounds.min.z
    · rw [if_pos h1, if_pos h2]
      cases axis
      · exact le_of_lt (lt_trans h1 h2)
      · exact le_of_lt h2
      · exact le_refl _
    · rw [if_pos h1, if_neg h2]
      cases axis
      · exact le_of_lt h1
      · exact le_refl _
      · exact not_lt.mp h2
  · by_cases h3 : FloatOps.sub bounds.max.x bounds.min.x < FloatOps.sub bounds.max.z bounds.min.z
    · rw [if_neg h1, if_pos h3]
      cases axis
      · exact le_of_lt h3
      · exact le_trans (not_lt.mp h1) (le_of_lt h3)
      · exact le_refl _
    · rw [if_neg h1, if_neg h3]
      cases axis
      · exact le_refl _
      · exact not_lt.mp h1
      · exact not_lt.mp h3

/-- C14. For every list `L` of more than 10 records with overall bounds
`B = refListBounds L` and extents `ex`, `ey`, `ez` (`max - min` on x, y, z), `buildBVHNode`
sorts `L` along the axis: if `ex < ey` then (Z if `ey < ez` else Y) else (Z if `ex < ez`
else X), and builds its children from the list sorted along that axis. The chosen axis has
an extent greater than or equal to all three extents; `ex = ey >= ez` gives X and
`ey = ez > ex` gives Y. -/
theorem buildBVHNode_sortAxis (S : StdSort (BVHTriangleRef F)) (L : List (BVHTriangleRef F))
    (h : 10 < L.length) :
    sortAxisOf (refListBounds L) =
        (if extent (refListBounds L) .X_AXIS < extent (refListBounds L) .Y_AXIS then
          (if extent (refListBounds L) .Y_AXIS < extent (refListBounds L) .Z_AXIS then .Z_AXIS
            else .Y_AXIS)
        else if extent (refListBounds L) .X_AXIS < extent (refListBounds L) .Z_AXIS then .Z_AXIS
        else .X_AXIS) ∧
      buildBVHNode S L =
        .node
          (refListBounds
            ((sortBVHRefList S L (sortAxisOf (refListBounds L))).take (L.length / 2 + 1)))
          (refListBounds
            ((sortBVHRefList S L (sortAxisOf (refListBounds L))).drop (L.length / 2)))
          (buildBVHNode S
            ((sortBVHRefList S L (sortAxisOf (refListBounds L))).take (L.length / 2 + 1)))
          (buildBVHNode S
            ((sortBVHRefList S L (sortAxisOf (refListBounds L))).drop (L.length / 2)))
          [] ∧
      (∀ axis, extent (refListBounds L) axis ≤
        extent (refListBounds L) (sortAxisOf (refListBounds L))) ∧
      (extent (refListBounds L) .X_AXIS = extent (refListBounds L) .Y_AXIS →
        extent (refListBounds L) .Z_AXIS ≤ extent (refListBounds L) .X_AXIS →
        sortAxisOf (refListBounds L) = .X_AXIS) ∧
      (extent (refListBounds L) .Y_AXIS = extent (refListBounds L) .Z_AXIS →
        extent (refListBounds L) .X_AXIS < extent (refListBounds L) .Y_AXIS →
        sortAxisOf (refListBounds L) = .Y_AXIS) := by
  have hlen := sortBVHRefList_length S L (sortAxisOf (refListBounds L))
  have hnode := buildBVHNode_node S L h
  rw [hlen] at hnode
  refine ⟨rfl, hnode, sortAxisOf_extent_max _, ?_, ?_⟩
  · intro hxy hzx
    have h1 : ¬ FloatOps.sub (refListBounds L).max.x (refListBounds L).min.x <
        FloatOps.sub (refListBounds L).max.y (refListBounds L).min.y := by
      intro hlt
      exact absurd hxy (ne_of_lt hlt)
    have h3 : ¬ FloatOps.sub (refListBounds L).max.x (refListBounds L).min.x <
        FloatOps.sub (refListBounds L).max.z (refListBounds L).min.z := not_lt.mpr hzx
    unfold sortAxisOf
    rw [if_neg h1, if_neg h3]
  · intro hyz hxy
    have h2 : ¬ FloatOps.sub (refListBounds L).max.y (refListBounds L).min.y <
        FloatOps.sub (refListBounds L).max.z (refListBounds L).min.z := by
      intro hlt
      exact absurd hyz (ne_of_lt hlt)
    have h1 : FloatOps.sub (refListBounds L).max.x (refListBounds L).min.x <
        FloatOps.sub (refListBounds L).max.y (refListBounds L).min.y := hxy
    unfold sortAxisOf
    rw [if_pos h1, if_neg h2]

/-- Witness for C14: the eleven records. -/
theorem buildBVHNode_sortAxis_witness :
    extent (refListBounds elevenRefs) .Z_AXIS ≤
      extent (refListBounds elevenRefs) (sortAxisOf (refListBounds elevenRefs)) :=
  (buildBVHNode_sortAxis (insertionStdSort _) elevenRefs (by decide)).2.2.1 .Z_AXIS

/-- The cascade on concrete boxes: equal extents give X; extents `1, 2, 2` give Y; extents
`1, 2, 3` give Z; extents `3, 2, 1` give X. -/
theorem sortAxisOf_examples :
    sortAxisOf (refListBounds elevenRefs) = .X_AXIS ∧
      sortAxisOf (⟨⟨0, 0, 0⟩, ⟨1, 2, 2⟩⟩ : AABB ℚ) = .Y_AXIS ∧
      sortAxisOf (⟨⟨0, 0, 0⟩, ⟨1, 2, 3⟩⟩ : AABB ℚ) = .Z_AXIS ∧
      sortAxisOf (⟨⟨0, 0, 0⟩, ⟨3, 2, 1⟩⟩ : AABB ℚ) = .X_AXIS := by
  decide!

end AxisClaims

/-! ## Boxes are not inverted, and no triangle is lost -/

section PipelineFacts

variable {F : Type} [FloatOps F]

/-- The record built by the constructor carries the index it was given. -/
theorem BVHTriangleRef.ctor_index (tri : TriangleRef) (vertex_data : List (Vertex F))
    (index : Nat) (r : BVHTriangleRef F)
    (h : BVHTriangleRef.ctor tri vertex_data index = some r) : r.index = index := by
  unfold BVHTriangleRef.ctor at h
  split at h
  · simp only [Option.some.injEq] at h
    rw [← h]
  · exact absurd h (by simp)

/-- The box of a record built by the constructor is not inverted, as soon as adding
`EPSILON` does not decrease a value and subtracting it does not increase one. -/
theorem BVHTriangleRef.ctor_minLeMax
    (hadd : ∀ x : F, x ≤ FloatOps.add x FloatOps.EPSILON)
    (hsub : ∀ x : F, FloatOps.sub x FloatOps.EPSILON ≤ x)
    (tri : TriangleRef) (vertex_data : List (Vertex F)) (index : Nat) (r : BVHTriangleRef F)
    (h : BVHTriangleRef.ctor tri vertex_data index = some r) : minLeMax r.bounds := by
  unfold BVHTriangleRef.ctor at h
  split at h
  · simp only [Option.some.injEq] at h
    rw [← h]
    intro axis
    cases axis <;>
      exact le_trans (hsub _)
        (le_trans (le_trans (min_le_left _ _) (le_max_left _ _)) (hadd _))
  · exact absurd h (by simp)

/-- A property of every record the constructor builds holds of every record the loop of
`buildTriangleRefList` returns. -/
theorem buildTriangleRefListLoop_forall (refs : List TriangleRef) (vertex_data : List (Vertex F))
    (P : BVHTriangleRef F → Prop)
    (hP : ∀ tri index r, BVHTriangleRef.ctor tri vertex_data index = some r → P r) :
    ∀ (fuel i : Nat) (acc recs : List (BVHTriangleRef F)),
      buildTriangleRefListLoop refs vertex_data fuel i acc = .returned recs →
      (∀ r ∈ acc, P r) → ∀ r ∈ recs, P r := by
  intro fuel
  induction fuel with
  | zero => intro i acc recs h; simp [buildTriangleRefListLoop] at h
  | succ fuel ih =>
    intro i acc recs h hacc
    simp only [buildTriangleRefListLoop] at h
    by_cases hlt : i < refs.length
    · rw [if_pos hlt] at h
      cases htri : refs[i]? with
      | none => rw [htri] at h; exact absurd h (by simp)
      | some tri =>
        rw [htri] at h
        simp only at h
        cases hr : BVHTriangleRef.ctor tri vertex_data i with
        | none => rw [hr] at h; exact absurd h (by simp)
        | some r =>
          rw [hr] at h
          refine ih _ _ _ h ?_
          intro r' hr'
          rcases List.mem_append.mp hr' with hr' | hr'
          · exact hacc r' hr'
          · rw [List.mem_singleton.mp hr']
            exact hP tri i r hr
    · rw [if_neg hlt] at h
      simp only [LoopResult.returned.injEq] at h
      rw [← h]
      exact hacc

/-- With `2 ^ 32` triangles or more the loop of `buildTriangleRefList` returns nothing. -/
theorem buildTriangleRefListLoop_not_returned (refs : List TriangleRef)
    (vertex_data : List (Vertex F)) (hsize : 2 ^ 32 ≤ refs.length) :
    ∀ (fuel i : Nat) (acc recs : List (BVHTriangleRef F)), i < 2 ^ 32 →
      buildTriangleRefListLoop refs vertex_data fuel i acc ≠ .returned recs := by
  intro fuel
  induction fuel with
  | zero => intro i acc recs _ h; simp [buildTriangleRefListLoop] at h
  | succ fuel ih =>
    intro i acc recs hi h
    have hlt : i < refs.length := by omega
    simp only [buildTriangleRefListLoop, if_pos hlt] at h
    cases htri : refs[i]? with
    | none => rw [htri] at h; exact absurd h (by simp)
    | some tri =>
      rw [htri] at h
      simp only at h
      cases hr : BVHTriangleRef.ctor tri vertex_data i with
      | none => rw [hr] at h; exact absurd h (by simp)
      | some r =>
        rw [hr] at h
        exact ih _ _ _ (by unfold toUInt32; omega) h

/-- Whatever the loop of `buildTriangleRefList` returns has one record per triangle, the
record in position `j` carrying index `j`. -/
theorem buildTriangleRefListLoop_indexed (refs : List TriangleRef)
    (vertex_data : List (Vertex F)) (hsize : refs.length < 2 ^ 32) :
    ∀ (fuel i : Nat) (acc recs : List (BVHTriangleRef F)), i ≤ refs.length → acc.length = i →
      (∀ (j : Nat) (r : BVHTriangleRef F), acc[j]? = some r → r.index = j) →
      buildTriangleRefListLoop refs vertex_data fuel i acc = .returned recs →
      recs.length = refs.length ∧
        ∀ (j : Nat) (r : BVHTriangleRef F), recs[j]? = some r → r.index = j := by
  intro fuel
  induction fuel with
  | zero => intro i acc recs _ _ _ h; simp [buildTriangleRefListLoop] at h
  | succ fuel ih =>
    intro i acc recs hi hlen hacc h
    simp only [buildTriangleRefListLoop] at h
    by_cases hlt : i < refs.length
    · rw [if_pos hlt] at h
      cases htri : refs[i]? with
      | none => rw [htri] at h; exact absurd h (by simp)
      | some tri =>
        rw [htri] at h
        simp only at h
        cases hr : BVHTriangleRef.ctor tri vertex_data i with
        | none => rw [hr] at h; exact absurd h (by simp)
        | some r =>
          rw [hr, toUInt32_of_lt (by omega)] at h
          refine ih (i + 1) (acc ++ [r]) recs (by omega) (by simp [hlen]) ?_ h
          intro j r' hj
          by_cases hji : j < i
          · rw [List.getElem?_append_left (by rw [hlen]; exact hji)] at hj
            exact hacc j r' hj
          · rw [List.getElem?_append_right (by rw [hlen]; omega), hlen] at hj
            have hj0 : j - i = 0 := by
              by_contra hne
              have : ([r] : List (BVHTriangleRef F))[j - i]? = none := by
                apply List.getElem?_eq_none
                simp only [List.length_singleton]
                omega
              rw [this] at hj
              exact absurd hj (by simp)
            rw [hj0] at hj
            simp only [List.getElem?_cons_zero, Option.some.injEq] at hj
            rw [← hj, BVHTriangleRef.ctor_index tri vertex_data i r hr]
            omega
    · rw [if_neg hlt] at h
      simp only [LoopResult.returned.injEq] at h
      rw [← h]
      exact ⟨by omega, hacc⟩

/-- Whatever `buildTriangleRefList` returns has one record per triangle, the record in
position `j` carrying index `j`. -/
theorem buildTriangleRefList_indexed (fuel : Nat) (refs : List TriangleRef)
    (vertex_data : List (Vertex F)) (recs : List (BVHTriangleRef F))
    (h : buildTriangleRefList fuel refs vertex_data = .returned recs) :
    recs.length = refs.length ∧
        ∀ (j : Nat) (r : BVHTriangleRef F), recs[j]? = some r → r.index = j := by
  unfold buildTriangleRefList at h
  by_cases hsize : refs.length < 2 ^ 32
  · exact buildTriangleRefListLoop_indexed refs vertex_data hsize fuel 0 [] recs (Nat.zero_le _)
      rfl (by intro j r hj; simp at hj) h
  · exact absurd h (buildTriangleRefListLoop_not_returned refs vertex_data (by omega) fuel 0 []
      recs (by decide))

/-- The box of a non-empty list of records whose boxes are not inverted is not inverted. -/
theorem refListBounds_minLeMax (refList : List (BVHTriangleRef F)) (hne : refList ≠ [])
    (h : ∀ r ∈ refList, minLeMax r.bounds) : minLeMax (refListBounds refList) := by
  obtain ⟨r, hr⟩ := List.exists_mem_of_ne_nil refList hne
  intro axis
  rw [refListBounds_eq_boundsFrom]
  exact le_trans ((boundsFrom_min axis refList sentinelBox).2.1 r hr)
    (le_trans (h r hr axis) ((boundsFrom_max axis refList sentinelBox).2.1 r hr))

/-- Every box stored in the tree built from a non-empty list of records whose boxes are not
inverted is not inverted. -/
theorem buildBVHNode_boxesMinLeMax_aux (S : StdSort (BVHTriangleRef F)) :
    ∀ (n : Nat) (refList : List (BVHTriangleRef F)), refList.length = n → refList ≠ [] →
      (∀ r ∈ refList, minLeMax r.bounds) → (buildBVHNode S refList).boxesMinLeMax := by
  intro n
  induction n using Nat.strong_induction_on with
  | _ n ih =>
    intro refList hn hne hall
    by_cases h : refList.length ≤ 10
    · rw [buildBVHNode_leaf S refList h]
      exact refListBounds_minLeMax refList hne hall
    · have h' : 10 < refList.length := Nat.not_le.mp h
      have hlen := sortBVHRefList_length S refList (sortAxisOf (refListBounds refList))
      have hperm : (sortBVHRefList S refList (sortAxisOf (refListBounds refList))).Perm refList :=
        S.perm _ refList (centroidLess_strictWeakOrdering _)
      rw [buildBVHNode_node S refList h']
      generalize sortBVHRefList S refList (sortAxisOf (refListBounds refList)) = sorted
        at hlen hperm ⊢
      have ht : (sorted.take (sorted.length / 2 + 1)).length = refList.length / 2 + 1 := by
        rw [List.length_take, hlen]; omega
      have hd : (sorted.drop (sorted.length / 2)).length = refList.length - refList.length / 2 := by
        rw [List.length_drop, hlen]
      have hnet : sorted.take (sorted.length / 2 + 1) ≠ [] := by
        intro he
        rw [he] at ht
        simp at ht
      have hned : sorted.drop (sorted.length / 2) ≠ [] := by
        intro he
        rw [he] at hd
        simp only [List.length_nil] at hd
        omega
      have hallt : ∀ r ∈ sorted.take (sorted.length / 2 + 1), minLeMax r.bounds :=
        fun r hr => hall r (hperm.subset (List.mem_of_mem_take hr))
      have halld : ∀ r ∈ sorted.drop (sorted.length / 2), minLeMax r.bounds :=
        fun r hr => hall r (hperm.subset (List.mem_of_mem_drop hr))
      exact ⟨refListBounds_minLeMax _ hnet hallt, refListBounds_minLeMax _ hned halld,
        ih _ (by rw [ht]; omega) _ rfl hnet hallt, ih _ (by rw [hd]; omega) _ rfl hned halld⟩

/-- The records in the leaves of the tree built from a list are the records of the list. -/
theorem buildBVHNode_mem_allRefs (S : StdSort (BVHTriangleRef F)) :
    ∀ (n : Nat) (refList : List (BVHTriangleRef F)), refList.length = n →
      ∀ r, r ∈ (buildBVHNode S refList).allRefs ↔ r ∈ refList := by
  intro n
  induction n using Nat.strong_induction_on with
  | _ n ih =>
    intro refList hn r
    by_cases h : refList.length ≤ 10
    · rw [buildBVHNode_leaf S refList h]
      rfl
    · have h' : 10 < refList.length := Nat.not_le.mp h
      have hlen := sortBVHRefList_length S refList (sortAxisOf (refListBounds refList))
      have hperm : (sortBVHRefList S refList (sortAxisOf (refListBounds refList))).Perm refList :=
        S.perm _ refList (centroidLess_strictWeakOrdering _)
      rw [buildBVHNode_node S refList h']
      generalize sortBVHRefList S refList (sortAxisOf (refListBounds refList)) = sorted
        at hlen hperm ⊢
      have ht : (sorted.take (sorted.length / 2 + 1)).length = refList.length / 2 + 1 := by
        rw [List.length_take, hlen]; omega
      have hd : (sorted.drop (sorted.length / 2)).length = refList.length - refList.length / 2 := by
        rw [List.length_drop, hlen]
      simp only [BVHBuildNode.allRefs, List.mem_append]
      rw [ih _ (by rw [ht]; omega) _ rfl r, ih _ (by rw [hd]; omega) _ rfl r, ← hperm.mem_iff]
      constructor
      · rintro (hr | hr)
        · exact List.mem_of_mem_take hr
        · exact List.mem_of_mem_drop hr
      · intro hr
        rw [← List.take_append_drop (sorted.length / 2 + 1) sorted] at hr
        rcases List.mem_append.mp hr with hr | hr
        · exact Or.inl hr
        · refine Or.inr ?_
          rw [← List.drop_drop] at hr
          exact List.mem_of_mem_drop hr

theorem rat_le_add_epsilon (x : ℚ) : x ≤ FloatOps.add x FloatOps.EPSILON := by
  show x ≤ x + 2748779 / 274877906944
  linarith

theorem rat_sub_epsilon_le (x : ℚ) : FloatOps.sub x FloatOps.EPSILON ≤ x := by
  show x - 2748779 / 274877906944 ≤ x
  linarith

/-- The records built for the two sample triangles are `sampleRecords`. -/
theorem buildTriangleRefList_sampleRecords :
    buildTriangleRefList 3 sampleTriangles sampleVertices = .returned sampleRecords := by
  decide!

end PipelineFacts

section PipelineClaims

variable {F : Type} [FloatOps F]

/-- C13. Assume of the float arithmetic only that adding `EPSILON` never decreases a value
and subtracting it never increases one (rounding is monotone). Then every record that
`buildTriangleRefList` produces has `bounds.min[i] <= bounds.max[i]` on all three axes, and
in the tree that `buildBVHNode` builds from any non-empty list of such records every stored
box (each leaf's `leftBounds`, each internal node's `leftBounds` and `rightBounds`) has
`min[i] <= max[i]` on all three axes. -/
theorem boxes_minLeMax
    (hadd : ∀ x : F, x ≤ FloatOps.add x FloatOps.EPSILON)
    (hsub : ∀ x : F, FloatOps.sub x FloatOps.EPSILON ≤ x)
    (T : List TriangleRef) (V : List (Vertex F)) (fuel : Nat) (recs : List (BVHTriangleRef F))
    (hrun : buildTriangleRefList fuel T V = .returned recs) :
    (∀ r ∈ recs, minLeMax r.bounds) ∧
      ∀ (S : StdSort (BVHTriangleRef F)) (L : List (BVHTriangleRef F)), L ≠ [] →
        (∀ r ∈ L, r ∈ recs) → (buildBVHNode S L).boxesMinLeMax := by
  have hrecs : ∀ r ∈ recs, minLeMax r.bounds := by
    unfold buildTriangleRefList at hrun
    exact buildTriangleRefListLoop_forall T V (fun r => minLeMax r.bounds)
      (fun tri index r h => BVHTriangleRef.ctor_minLeMax hadd hsub tri V index r h) fuel 0 []
      recs hrun (fun r hr => absurd hr (List.not_mem_nil r))
  refine ⟨hrecs, ?_⟩
  intro S L hne hsub'
  exact buildBVHNode_boxesMinLeMax_aux S L.length L rfl hne (fun r hr => hrecs r (hsub' r hr))

/-- Witness for C13: the records of the two sample triangles, over the rationals. -/
theorem boxes_minLeMax_witness :
    (buildBVHNode (insertionStdSort _) sampleRecords).boxesMinLeMax :=
  (boxes_minLeMax rat_le_add_epsilon rat_sub_epsilon_le sampleTriangles sampleVertices 3
    sampleRecords buildTriangleRefList_sampleRecords).2 (insertionStdSort _) sampleRecords
    (List.cons_ne_nil _ _) (fun _ hr => hr)

/-- Whatever `buildTriangleRefList` returns, the record array obtained from it by
`buildBVHNode` and `buildBVH` into an empty BVH carries exactly the original-index values
`0, ..., N-1`, and each of its records is the record built for its index. -/
theorem pipeline_of_returned (S : StdSort (BVHTriangleRef F)) (uninit : Nat → BVHNode F)
    (T : List TriangleRef) (V : List (Vertex F)) (fuel : Nat) (recs : List (BVHTriangleRef F))
    (hrun : buildTriangleRefList fuel T V = .returned recs) :
    (∀ j : Nat,
        (∃ r ∈ (buildBVH uninit (buildBVHNode S recs) ⟨[], []⟩).2.refList, r.index = j) ↔
          j < T.length) ∧
      (∀ r ∈ (buildBVH uninit (buildBVHNode S recs) ⟨[], []⟩).2.refList,
        recs[r.index]? = some r) := by
  obtain ⟨hlen, hidx⟩ := buildTriangleRefList_indexed fuel T V recs hrun
  have hmem : ∀ r, r ∈ (buildBVH uninit (buildBVHNode S recs) ⟨[], []⟩).2.refList ↔
      r ∈ recs := by
    intro r
    rw [buildBVH_refList, List.nil_append]
    exact buildBVHNode_mem_allRefs S recs.length recs rfl r
  have hget : ∀ r ∈ recs, recs[r.index]? = some r := by
    intro r hr
    obtain ⟨j, hj, hjr⟩ := List.getElem_of_mem hr
    have hjr' : recs[j]? = some r := by rw [List.getElem?_eq_getElem hj, hjr]
    rw [hidx j r hjr']
    exact hjr'
  refine ⟨?_, fun r hr => hget r ((hmem r).mp hr)⟩
  intro j
  constructor
  · rintro ⟨r, hr, hrj⟩
    have h1 := hget r ((hmem r).mp hr)
    rw [hrj] at h1
    have := (List.getElem?_eq_some_iff.mp h1).1
    omega
  · intro hj
    have hj' : j < recs.length := by omega
    have h1 : recs[j]? = some recs[j] := List.getElem?_eq_getElem hj'
    exact ⟨recs[j], (hmem _).mpr (List.getElem_mem hj'), hidx j _ h1⟩

/-- C15 (amended). For every mesh with `N < 2 ^ 32` triangles and valid indices,
`buildTriangleRefList` returns its records `recs` (for every fuel above `N`), and after
`buildBVHNode` and `buildBVH` into an empty BVH no triangle is lost and none is invented:
the set of original-index values carried by the records of `bvh.refList` is exactly
`{0, ..., N-1}`, and every record in `bvh.refList` is equal to the record `recs[index]`
that `buildTriangleRefList` produced for its index. -/
theorem pipeline_keeps_triangles (S : StdSort (BVHTriangleRef F)) (uninit : Nat → BVHNode F)
    (T : List TriangleRef) (V : List (Vertex F)) (hsize : T.length < 2 ^ 32)
    (hvalid : ∀ tri ∈ T, tri.v0 < V.length ∧ tri.v1 < V.length ∧ tri.v2 < V.length) :
    ∃ recs : List (BVHTriangleRef F),
      (∀ fuel, T.length < fuel → buildTriangleRefList fuel T V = .returned recs) ∧
      (∀ j : Nat,
        (∃ r ∈ (buildBVH uninit (buildBVHNode S recs) ⟨[], []⟩).2.refList, r.index = j) ↔
          j < T.length) ∧
      (∀ r ∈ (buildBVH uninit (buildBVHNode S recs) ⟨[], []⟩).2.refList,
        recs[r.index]? = some r) := by
  obtain ⟨recs, hrun, _⟩ :=
    buildTriangleRefListLoop_spec T V hsize hvalid (T.length + 1) 0 [] (Nat.zero_le _)
      (by omega) ⟨rfl, fun j hj => absurd hj (Nat.not_lt_zero j)⟩
  have hpost := pipeline_of_returned S uninit T V (T.length + 1) recs hrun
  refine ⟨recs, ?_, hpost.1, hpost.2⟩
  intro fuel hfuel
  have := buildTriangleRefListLoop_mono T V (T.length + 1) 0 [] recs hrun
    (fuel - (T.length + 1))
  rw [show T.length + 1 + (fuel - (T.length + 1)) = fuel by omega] at this
  exact this

/-- Witness for C15: the two sample triangles. -/
theorem pipeline_keeps_triangles_witness :
    ∃ recs : List (BVHTriangleRef ℚ),
      (∀ fuel, 2 < fuel →
        buildTriangleRefList fuel sampleTriangles sampleVertices = .returned recs) ∧
      (∀ j : Nat,
        (∃ r ∈ (buildBVH (fun _ => zeroNode) (buildBVHNode (insertionStdSort _) recs)
            ⟨[], []⟩).2.refList, r.index = j) ↔ j < 2) ∧
      (∀ r ∈ (buildBVH (fun _ => zeroNode) (buildBVHNode (insertionStdSort _) recs)
          ⟨[], []⟩).2.refList, recs[r.index]? = some r) :=
  pipeline_keeps_triangles (insertionStdSort _) (fun _ => zeroNode) sampleTriangles
    sampleVertices (by decide) (by decide)

/-- C15 (counterexample). For the mesh of `2 ^ 32` triangles over one vertex, all indices
valid, the first stage never returns a record list, whatever the fuel: there is no record
array whose indices could be `{0, ..., N-1}`. -/
theorem pipeline_never_completes :
    (∀ tri ∈ List.replicate (2 ^ 32) (⟨0, 0, 0⟩ : TriangleRef),
        tri.v0 < [vertexAt 0 0 0].length ∧ tri.v1 < [vertexAt 0 0 0].length ∧
          tri.v2 < [vertexAt 0 0 0].length) ∧
      ¬ ∃ (fuel : Nat) (recs : List (BVHTriangleRef ℚ)),
        buildTriangleRefList fuel (List.replicate (2 ^ 32) ⟨0, 0, 0⟩) [vertexAt 0 0 0] =
            .returned recs ∧
          ∀ j : Nat,
            (∃ r ∈ (buildBVH (fun _ => zeroNode) (buildBVHNode (insertionStdSort _) recs)
                ⟨[], []⟩).2.refList, r.index = j) ↔
              j < (List.replicate (2 ^ 32) (⟨0, 0, 0⟩ : TriangleRef)).length := by
  refine ⟨?_, ?_⟩
  · intro tri htri
    rw [List.eq_of_mem_replicate htri]
    exact ⟨Nat.zero_lt_one, Nat.zero_lt_one, Nat.zero_lt_one⟩
  · rintro ⟨fuel, recs, hrun, _⟩
    exact buildTriangleRefListLoop_not_returned (List.replicate (2 ^ 32) ⟨0, 0, 0⟩)
      [vertexAt 0 0 0] (by rw [List.length_replicate]) fuel 0 [] recs (by decide) hrun

/-- The whole pipeline on the two sample triangles: the record array holds the two records
that `buildTriangleRefList` built, with indices 0 and 1. -/
theorem pipeline_sample :
    (buildBVH (fun _ => zeroNode) (buildBVHNode (insertionStdSort _) sampleRecords)
        ⟨[], []⟩).2.refList = sampleRecords ∧
      sampleRecords.map (fun r => r.index) = [0, 1] := by
  decide!

end PipelineClaims

/-! ## The box of a record -/

section RecordBoxClaims

variable {F : Type} [FloatOps F]

/-- C8 (amended). For every triangle with vertex positions `p0`, `p1`, `p2`, the record
built by `BVHTriangleRef` has, on each of the three axes,
`bounds.max = max(p0, p1, p2) + EPSILON` and `bounds.min = min(p0, p1, p2) - EPSILON`, the
sum and the difference being those of float arithmetic; as soon as adding `EPSILON` never
decreases a value and subtracting it never increases one, the box contains all three
vertices. (Nothing is said of the width of the margin: it is what rounding leaves.) -/
theorem BVHTriangleRef.ctor_bounds (tri : TriangleRef) (V : List (Vertex F)) (index : Nat)
    (p0 p1 p2 : Vertex F) (h0 : V[tri.v0]? = some p0) (h1 : V[tri.v1]? = some p1)
    (h2 : V[tri.v2]? = some p2) :
    ∃ r : BVHTriangleRef F,
      BVHTriangleRef.ctor tri V index = some r ∧
      (∀ axis : BVHAxis,
        r.bounds.max.get axis =
            FloatOps.add (max (p0.pos.get axis) (max (p1.pos.get axis) (p2.pos.get axis)))
              FloatOps.EPSILON ∧
          r.bounds.min.get axis =
            FloatOps.sub (min (p0.pos.get axis) (min (p1.pos.get axis) (p2.pos.get axis)))
              FloatOps.EPSILON) ∧
      ((∀ x : F, x ≤ FloatOps.add x FloatOps.EPSILON) →
        (∀ x : F, FloatOps.sub x FloatOps.EPSILON ≤ x) →
        ∀ axis : BVHAxis, ∀ p ∈ [p0.pos, p1.pos, p2.pos],
          r.bounds.min.get axis ≤ p.get axis ∧ p.get axis ≤ r.bounds.max.get axis) := by
  have hc : BVHTriangleRef.ctor tri V index =
      some
        { v0 := p0.pos
          e1 := p1.pos.sub p0.pos
          e2 := p2.pos.sub p0.pos
          bounds :=
            { max := (glmMax p0.pos (glmMax p1.pos p2.pos)).add (vec3.splat FloatOps.EPSILON)
              min := (glmMin p0.pos (glmMin p1.pos p2.pos)).sub (vec3.splat FloatOps.EPSILON) }
          index := index } := by
    simp only [BVHTriangleRef.ctor, h0, h1, h2]
  have hform : ∀ axis : BVHAxis,
      ((glmMax p0.pos (glmMax p1.pos p2.pos)).add (vec3.splat FloatOps.EPSILON)).get axis =
          FloatOps.add (max (p0.pos.get axis) (max (p1.pos.get axis) (p2.pos.get axis)))
            FloatOps.EPSILON ∧
        ((glmMin p0.pos (glmMin p1.pos p2.pos)).sub (vec3.splat FloatOps.EPSILON)).get axis =
          FloatOps.sub (min (p0.pos.get axis) (min (p1.pos.get axis) (p2.pos.get axis)))
            FloatOps.EPSILON := by
    intro axis
    cases axis <;> exact ⟨rfl, rfl⟩
  refine ⟨_, hc, hform, ?_⟩
  intro hadd hsub axis p hp
  have hmaxle : max (p0.pos.get axis) (max (p1.pos.get axis) (p2.pos.get axis)) ≤
      ((glmMax p0.pos (glmMax p1.pos p2.pos)).add (vec3.splat FloatOps.EPSILON)).get axis := by
    rw [(hform axis).1]; exact hadd _
  have hminle : ((glmMin p0.pos (glmMin p1.pos p2.pos)).sub
      (vec3.splat FloatOps.EPSILON)).get axis ≤
      min (p0.pos.get axis) (min (p1.pos.get axis) (p2.pos.get axis)) := by
    rw [(hform axis).2]; exact hsub _
  simp only [List.mem_cons, List.mem_singleton, List.not_mem_nil, or_false] at hp
  rcases hp with rfl | rfl | rfl
  · exact ⟨le_trans hminle (min_le_left _ _), le_trans (le_max_left _ _) hmaxle⟩
  · exact ⟨le_trans hminle (le_trans (min_le_right _ _) (min_le_left _ _)),
      le_trans (le_trans (le_max_left _ _) (le_max_right _ _)) hmaxle⟩
  · exact ⟨le_trans hminle (le_trans (min_le_right _ _) (min_le_right _ _)),
      le_trans (le_trans (le_max_right _ _) (le_max_right _ _)) hmaxle⟩

/-- Witness for C8: the first sample triangle, over the rationals. -/
theorem BVHTriangleRef.ctor_bounds_witness :
    ∃ r : BVHTriangleRef ℚ,
      BVHTriangleRef.ctor ⟨0, 1, 2⟩ sampleVertices 0 = some r ∧
      ∀ axis : BVHAxis,
        ∀ p ∈ [(vertexAt 0 0 0).pos, (vertexAt 1 0 0).pos, (vertexAt 0 1 0).pos],
          r.bounds.min.get axis ≤ p.get axis ∧ p.get axis ≤ r.bounds.max.get axis :=
  match BVHTriangleRef.ctor_bounds ⟨0, 1, 2⟩ sampleVertices 0 (vertexAt 0 0 0)
      (vertexAt 1 0 0) (vertexAt 0 1 0) rfl rfl rfl with
  | ⟨r, hr, _, hin⟩ => ⟨r, hr, hin rat_le_add_epsilon rat_sub_epsilon_le⟩

/-- C8 (counterexample). In binary32, the triangle with vertices `(256, 0, 0)`,
`(0, 256, 0)`, `(0, 0, 256)`: the largest coordinate is 256 on every axis and the record's
`bounds.max` is 256 on every axis, because `256 + EPSILON` rounds to 256: the margin on
that side is zero, not `EPSILON`. Moreover `EPSILON`, the binary32 value of `0.00001f`, is
`2748779 / 2 ^ 38`, not `1 / 100000`. -/
theorem BVHTriangleRef.ctor_margin_lost :
    (BVHTriangleRef.ctor ⟨0, 1, 2⟩ farVertices32 0).map (fun r => r.bounds) =
        some ⟨vec32 (-eps32) (-eps32) (-eps32), vec32 256 256 256⟩ ∧
      glmMax (vec32 256 0 0) (glmMax (vec32 0 256 0) (vec32 0 0 256)) = vec32 256 256 256 ∧
      (FloatOps.EPSILON : Binary32) = Binary32.ofRat eps32 ∧
      eps32 ≠ 1 / 100000 ∧ eps32 ≠ 0 := by
  refine ⟨by decide!, by decide!, by decide!, by decide!, by decide!⟩

/-- The records built in binary32 for the two triangles of `sampleTriangles` over the
vertices `(0,0,0)`, `(1,0,0)`, `(0,1,0)`, `(0,0,1)`: `1 + EPSILON` rounds to
`2097173 / 2 ^ 21`. -/
theorem buildTriangleRefList_sample32 :
    buildTriangleRefList 3 sampleTriangles
        [vertexAt32 0 0 0, vertexAt32 1 0 0, vertexAt32 0 1 0, vertexAt32 0 0 1] =
      .returned
        [⟨vec32 0 0 0, vec32 1 0 0, vec32 0 1 0,
            ⟨vec32 (-eps32) (-eps32) (-eps32),
              vec32 (2097173 / 2097152) (2097173 / 2097152) eps32⟩, 0⟩,
          ⟨vec32 1 0 0, vec32 (-1) 1 0, vec32 (-1) 0 1,
            ⟨vec32 (-eps32) (-eps32) (-eps32),
              vec32 (2097173 / 2097152) (2097173 / 2097152) (2097173 / 2097152)⟩, 1⟩] := by
  decide!

end RecordBoxClaims
